import Mathlib

/-!
Terminal menu prompts (menu.go): state machines of the select prompts.

Shallow embedding of `SingleModel` and `MultipleModel` from `menu.go`, their
constructors `NewSingle` / `NewMultiple` and their `Update` methods.

Conventions of the embedding
* Go `int` values (the cursor, the keys of the selection map) are `Int`.  The
  only arithmetic is `cursor--` under the guard `cursor > 0`, `cursor++`
  under the guard `cursor < len(Choices)-1` and `len(Choices)-1` itself, none
  of which can leave the 64-bit range, so no wrap-around is modelled.
* A Go run-time panic is an `Except.error`.
* `map[int]struct{}` is `Option (Finset Int)`: `none` is the nil map (reads,
  `delete` and `range` work on it, an assignment panics), `some S` is an
  initialised map whose key set is `S`.
* Events (`tea.Msg`) and commands (`tea.Cmd`) belong to the event-loop library;
  only what `menu.go` inspects of them is represented.
-/

namespace Menu

/-- Run-time failures the Go code of `menu.go` can raise. -/
inductive Panic where
  /-- Slice index out of range, from `m.Choices[m.cursor]`. -/
  | indexOutOfRange
  /-- Assignment to an entry of a nil map, from `m.Selected[i] = struct{}{}`. -/
  | nilMapAssign
  deriving DecidableEq, Repr

/-- Key types of the event-loop library that `menu.go` names (`tea.KeyEnter`,
`tea.KeyCtrlC`, `tea.KeyEsc`); every other key type is `KeyOther`. -/
inductive KeyType where
  | KeyEnter
  | KeyCtrlC
  | KeyEsc
  | KeyOther (code : Nat)
  deriving DecidableEq, Repr

/-- A decoded key event (`tea.KeyMsg`).  `Typ` is its field `Type`, `str` is
the value its method `String()` returns: the stringified key identity that the
select prompts match against literals. -/
structure KeyMsg where
  Typ : KeyType
  str : String
  deriving DecidableEq, Repr

/-- An event (`tea.Msg`): a key event, an `error` value, or any other message
of the event loop (window size, blink tick, and so on). -/
inductive Msg where
  | key (k : KeyMsg)
  | error (e : String)
  | other (tag : Nat)
  deriving DecidableEq, Repr

/-- A command (`tea.Cmd`) returned to the event loop; `Quit` is `tea.Quit`, the
termination request.  The Go value `nil` is `none` of `Option Cmd`. -/
inductive Cmd where
  | Quit
  | other (tag : Nat)
  deriving DecidableEq, Repr

/-- Modelled from the spec: the library constant `tea.KeyEnter.String()`, which
the spec gives as the literal `enter`. -/
def KeyEnter_String : String := "enter"

/-- Modelled from the spec: the library constant `tea.KeyEsc.String()`, which
the spec gives as the literal `esc`. -/
def KeyEsc_String : String := "esc"

/-- Go slice indexing `xs[i]` with an `int` index: panics outside `[0, len)`. -/
def sliceIndex (xs : List String) (i : Int) : Except Panic String :=
  if 0 ≤ i then
    match xs[i.toNat]? with
    | some s => .ok s
    | none => .error .indexOutOfRange
  else .error .indexOutOfRange

/-- Go map read `_, ok := sel[i]`: the nil map has no entry. -/
def mapHas (sel : Option (Finset Int)) (i : Int) : Bool :=
  match sel with
  | none => false
  | some S => decide (i ∈ S)

/-- Go `delete(sel, i)`: a no-op on the nil map. -/
def mapDelete (sel : Option (Finset Int)) (i : Int) : Option (Finset Int) :=
  match sel with
  | none => none
  | some S => some (S.erase i)

/-- Go `sel[i] = struct{}{}`: panics on the nil map. -/
def mapAssign (sel : Option (Finset Int)) (i : Int) : Except Panic (Option (Finset Int)) :=
  match sel with
  | none => .error .nilMapAssign
  | some S => .ok (some (insert i S))

/-! ## SingleModel -/

/-- The struct `SingleModel`. -/
structure SingleModel where
  Selected : String
  Interrupt : Bool
  Choices : List String
  cursor : Int
  Message : String
  Title : String
  deriving DecidableEq, Repr

/-- The constructor `NewSingle`; `Interrupt` takes its zero value `false`. -/
def NewSingle (choices : List String) (title message : String) : SingleModel :=
  { Choices := choices, Title := title, Message := message, Selected := "",
    cursor := 0, Interrupt := false }

/-- The method `SingleModel.Update`. -/
def SingleModel.Update (m : SingleModel) (msg : Msg) :
    Except Panic (SingleModel × Option Cmd) :=
  match msg with
  | .key k =>
    if k.str = "ctrl+c" ∨ k.str = "q" then
      .ok ({ m with Interrupt := true }, some Cmd.Quit)
    else if k.str = "up" ∨ k.str = "k" then
      .ok (if m.cursor > 0 then { m with cursor := m.cursor - 1 } else m, none)
    else if k.str = "down" ∨ k.str = "j" then
      .ok (if m.cursor < (m.Choices.length : Int) - 1 then
             { m with cursor := m.cursor + 1 } else m, none)
    else if k.str = KeyEnter_String ∨ k.str = " " then
      match sliceIndex m.Choices m.cursor with
      | .ok s => .ok ({ m with Selected := s }, some Cmd.Quit)
      | .error e => .error e
    else .ok (m, none)
  | _ => .ok (m, none)

/-- Feeding a sequence of events to `SingleModel.Update`, one after the other,
each on the state the previous call returned; a panic ends the run. -/
def SingleModel.run (m : SingleModel) : List Msg → Except Panic SingleModel
  | [] => .ok m
  | msg :: rest =>
    match m.Update msg with
    | .ok (m1, _) => SingleModel.run m1 rest
    | .error e => .error e

/-! ## MultipleModel -/

/-- The struct `MultipleModel`. -/
structure MultipleModel where
  Selected : Option (Finset Int)
  Interrupt : Bool
  Choices : List String
  cursor : Int
  Message : String
  Title : String
  deriving DecidableEq

/-- The constructor `NewMultiple`: `Selected` is a fresh empty map. -/
def NewMultiple (choices : List String) (title message : String) : MultipleModel :=
  { Choices := choices, Title := title, Message := message, Selected := some ∅,
    cursor := 0, Interrupt := false }

/-- The first loop of the `esc` case: `somethingSelected` becomes true as soon
as the iteration over the keys of `Selected` meets a key that is in the map. -/
def somethingSelected (sel : Option (Finset Int)) : Bool :=
  match sel with
  | none => false
  | some S => S.fold (· || ·) false (fun i => decide (i ∈ S))

/-- One iteration of the second loop of the `esc` case, at index `i` of
`Choices`. -/
def escStep (something : Bool) (acc : Except Panic (Option (Finset Int))) (i : Nat) :
    Except Panic (Option (Finset Int)) :=
  match acc with
  | .error e => .error e
  | .ok sel => if !something then mapAssign sel (i : Int) else .ok (mapDelete sel (i : Int))

/-- The second loop of the `esc` case: `for i := range m.Choices`. -/
def escLoop (something : Bool) (sel : Option (Finset Int)) (n : Nat) :
    Except Panic (Option (Finset Int)) :=
  (List.range n).foldl (escStep something) (.ok sel)

/-- The method `MultipleModel.Update`. -/
def MultipleModel.Update (m : MultipleModel) (msg : Msg) :
    Except Panic (MultipleModel × Option Cmd) :=
  match msg with
  | .key k =>
    if k.str = "ctrl+c" ∨ k.str = "q" then
      .ok ({ m with Interrupt := true }, some Cmd.Quit)
    else if k.str = "up" ∨ k.str = "k" then
      .ok (if m.cursor > 0 then { m with cursor := m.cursor - 1 } else m, none)
    else if k.str = "down" ∨ k.str = "j" then
      .ok (if m.cursor < (m.Choices.length : Int) - 1 then
             { m with cursor := m.cursor + 1 } else m, none)
    else if k.str = KeyEnter_String then
      .ok (m, some Cmd.Quit)
    else if k.str = " " then
      if mapHas m.Selected m.cursor then
        .ok ({ m with Selected := mapDelete m.Selected m.cursor }, none)
      else
        match mapAssign m.Selected m.cursor with
        | .ok sel => .ok ({ m with Selected := sel }, none)
        | .error e => .error e
    else if k.str = KeyEsc_String then
      match escLoop (somethingSelected m.Selected) m.Selected m.Choices.length with
      | .ok sel => .ok ({ m with Selected := sel }, none)
      | .error e => .error e
    else .ok (m, none)
  | _ => .ok (m, none)

/-- Feeding a sequence of events to `MultipleModel.Update`, one after the
other, each on the state the previous call returned; a panic ends the run. -/
def MultipleModel.run (m : MultipleModel) : List Msg → Except Panic MultipleModel
  | [] => .ok m
  | msg :: rest =>
    match m.Update msg with
    | .ok (m1, _) => MultipleModel.run m1 rest
    | .error e => .error e

/-- The key event whose `String()` is `s` (its key type plays no role in the
select prompts). -/
def keyOf (s : String) : Msg := .key { Typ := .KeyOther 0, str := s }

/-- The index range `{0, ..., n-1}` of a choice list of length `n`, as a set of
Go `int` keys. -/
def indexRange (n : Nat) : Finset Int := (Finset.range n).image (fun i : Nat => (i : Int))


/-! ## Predicates and sample states used by the theorems -/

deriving instance DecidableEq for Except

/-- A sample `SingleModel` state: three choices, cursor on the second. -/
def exampleSingle : SingleModel :=
  { Selected := "", Interrupt := false, Choices := ["red", "green", "blue"], cursor := 1,
    Message := "m", Title := "t" }

/-- A sample `MultipleModel` state: three choices, the first one selected. -/
def exampleMultiple : MultipleModel :=
  { Selected := some {0}, Interrupt := false, Choices := ["a", "b", "c"], cursor := 0,
    Message := "m", Title := "t" }

/-- A sample `MultipleModel` state whose selection map is the nil map, as in a
struct literal that does not go through `NewMultiple`. -/
def exampleNilMultiple : MultipleModel :=
  { Selected := none, Interrupt := false, Choices := ["a"], cursor := 0,
    Message := "m", Title := "t" }

/-- Whether an event is a navigation key: `up` / `k` or `down` / `j`. -/
def isNavKey : Msg → Bool
  | .key k => k.str = "up" ∨ k.str = "k" ∨ k.str = "down" ∨ k.str = "j"
  | _ => false

/-- The cursor is a valid index of the choice list. -/
def SingleModel.InRange (m : SingleModel) : Prop :=
  0 ≤ m.cursor ∧ m.cursor < (m.Choices.length : Int)

/-- The cursor is at 0 or at a valid index: what navigation alone maintains,
also over an empty choice list. -/
def SingleModel.NavInv (m : SingleModel) : Prop :=
  0 ≤ m.cursor ∧ (m.cursor = 0 ∨ m.cursor < (m.Choices.length : Int))

/-- The cursor is at 0 or at a valid index: what navigation alone maintains,
also over an empty choice list. -/
def MultipleModel.NavInv (m : MultipleModel) : Prop :=
  0 ≤ m.cursor ∧ (m.cursor = 0 ∨ m.cursor < (m.Choices.length : Int))

/-- The selection map is initialised and holds only valid indices, and the
cursor is a valid index. -/
def MultipleModel.Inv (m : MultipleModel) : Prop :=
  (∃ S, m.Selected = some S ∧ ∀ i ∈ S, 0 ≤ i ∧ i < (m.Choices.length : Int)) ∧
    0 ≤ m.cursor ∧ m.cursor < (m.Choices.length : Int)

/-- Whether an event is a key event whose `String()` is one of `names`. -/
def keyIn (msg : Msg) (names : List String) : Bool :=
  match msg with
  | .key k => decide (k.str ∈ names)
  | _ => false

/-- Feeding a sequence of events to `SingleModel.Update`, one after the other,
each on the state the previous call returned, as `SingleModel.run` does, and
recording the command every call returned.  Every event is delivered, whatever
commands the earlier calls returned; a panic ends the run. -/
def SingleModel.runCmds (m : SingleModel) :
    List Msg → Except Panic (SingleModel × List (Option Cmd))
  | [] => .ok (m, [])
  | msg :: rest =>
    match m.Update msg with
    | .ok (m1, c) =>
      match SingleModel.runCmds m1 rest with
      | .ok (m2, cs) => .ok (m2, c :: cs)
      | .error e => .error e
    | .error e => .error e

/-- A sample `SingleModel` state with a terminal flag set: the state reached
from `NewSingle` on three choices by the keys `down` and `q`. -/
def exampleInterrupted : SingleModel :=
  { Selected := "", Interrupt := true, Choices := ["red", "green", "blue"], cursor := 1,
    Message := "m", Title := "t" }

/-! ## MultipleModel.View -/

/-- The body of the loop of `MultipleModel.View` at index `i`: the value of
`fmt.Sprintf("%s [%s] %s\n", cursor, checked, choice)`, where `cursor` is `>`
when `m.cursor == i` and a blank otherwise, and `checked` is `x` when `i` is a
key of `m.Selected` and a blank otherwise. -/
def MultipleModel.choiceLine (m : MultipleModel) (i : Nat) (choice : String) : String :=
  let cursor := if m.cursor = (i : Int) then ">" else " "
  let checked := if mapHas m.Selected (i : Int) then "x" else " "
  cursor ++ " [" ++ checked ++ "] " ++ choice ++ "\n"

/-- The loop `for i, choice := range m.Choices` of `MultipleModel.View`, from
index `i` on: each iteration appends the formatted line to the string `s`
built so far (`s += fmt.Sprintf(...)`). -/
def MultipleModel.viewLoop (m : MultipleModel) : Nat → List String → String → String
  | _, [], s => s
  | i, choice :: rest, s =>
    MultipleModel.viewLoop m (i + 1) rest (s ++ m.choiceLine i choice)

/-- The method `MultipleModel.View`. -/
def MultipleModel.View (m : MultipleModel) : String :=
  let s := m.Title ++ "\n" ++ m.Message ++ "\n\n"
  let s := MultipleModel.viewLoop m 0 m.Choices s
  let s := s ++ ("\nSelected: " ++ m.Message ++ "\n")
  s ++ "\nPress q or Ctrl+C to quit, Space to select, Esc to select all, Enter to finalize selection\n"

/-- A sample `MultipleModel` state that differs from `exampleMultiple` only in
`Selected`: the second choice is selected instead of the first. -/
def exampleMultipleSecond : MultipleModel :=
  { Selected := some {1}, Interrupt := false, Choices := ["a", "b", "c"], cursor := 0,
    Message := "m", Title := "t" }

/-! ## InputModel -/

/-- The struct `InputModel`.  `σ` is the state type of the text-editing widget
(`textinput.Model`, a library type); `Error` is a Go `error` value, `none` for
`nil`. -/
structure InputModel (σ : Type) where
  Input : σ
  Prompt : String
  Error : Option String

/-- The method `InputModel.Update`.  `widgetUpdate` is the `Update` method of
the text-editing widget (`textinput.Model.Update`, library code), taken as a
parameter. -/
def InputModel.Update {σ : Type} (widgetUpdate : σ → Msg → σ × Option Cmd)
    (m : InputModel σ) (msg : Msg) : InputModel σ × Option Cmd :=
  match msg with
  | .key k =>
    if k.Typ = .KeyEnter ∨ k.Typ = .KeyCtrlC ∨ k.Typ = .KeyEsc then
      (m, some Cmd.Quit)
    else
      ({ m with Input := (widgetUpdate m.Input msg).1 }, (widgetUpdate m.Input msg).2)
  | .error e => ({ m with Error := some e }, none)
  | .other _ =>
    ({ m with Input := (widgetUpdate m.Input msg).1 }, (widgetUpdate m.Input msg).2)

/-- Feeding a sequence of events to `InputModel.Update`, one after the other. -/
def InputModel.run {σ : Type} (widgetUpdate : σ → Msg → σ × Option Cmd)
    (m : InputModel σ) : List Msg → InputModel σ
  | [] => m
  | msg :: rest => InputModel.run widgetUpdate (InputModel.Update widgetUpdate m msg).1 rest

/-- Modelled from the spec: a text-editing widget that enforces a maximum
character length.  Its state is the buffer; a key event appends its text when
the buffer is shorter than `limit`, every other event leaves the buffer as it
is, and no follow-up command is returned.  It stands in for the library widget
in the sample runs only. -/
def limitWidget (limit : Nat) (buf : String) (msg : Msg) : String × Option Cmd :=
  match msg with
  | .key k => if buf.length < limit then (buf ++ k.str, none) else (buf, none)
  | _ => (buf, none)

/-- Whether `InputModel.Update` hands an event on to the widget: every event
that is neither a key event of type enter, ctrl+c or esc nor an `error`
value. -/
def isForwarded (msg : Msg) : Bool :=
  match msg with
  | .key k => !(decide (k.Typ = .KeyEnter ∨ k.Typ = .KeyCtrlC ∨ k.Typ = .KeyEsc))
  | .error _ => false
  | .other _ => true

/-- A sample `InputModel` over `limitWidget`: empty buffer, no stored error. -/
def exampleInput : InputModel String :=
  { Input := "", Prompt := "name", Error := none }

/-! ## SingleModel: lemmas -/

theorem sliceIndex_of_inRange (xs : List String) (i : Int) (h0 : 0 ≤ i)
    (h1 : i < (xs.length : Int)) :
    ∃ s, xs[i.toNat]? = some s ∧ sliceIndex xs i = .ok s := by
  have hlt : i.toNat < xs.length := by omega
  refine ⟨xs[i.toNat], List.getElem?_eq_getElem hlt, ?_⟩
  simp [sliceIndex, h0, List.getElem?_eq_getElem hlt]

theorem sliceIndex_nil (i : Int) : sliceIndex [] i = .error .indexOutOfRange := by
  unfold sliceIndex
  split <;> simp

theorem single_Update_cancel (m : SingleModel) (k : KeyMsg)
    (hk : k.str = "ctrl+c" ∨ k.str = "q") :
    m.Update (.key k) = .ok ({ m with Interrupt := true }, some Cmd.Quit) := by
  simp [SingleModel.Update, hk]

theorem single_Update_up (m : SingleModel) (k : KeyMsg)
    (hk : k.str = "up" ∨ k.str = "k") :
    m.Update (.key k)
      = .ok (if m.cursor > 0 then { m with cursor := m.cursor - 1 } else m, none) := by
  rcases hk with h | h <;> simp [SingleModel.Update, h]

theorem single_Update_down (m : SingleModel) (k : KeyMsg)
    (hk : k.str = "down" ∨ k.str = "j") :
    m.Update (.key k)
      = .ok (if m.cursor < (m.Choices.length : Int) - 1 then
               { m with cursor := m.cursor + 1 } else m, none) := by
  rcases hk with h | h <;> simp [SingleModel.Update, h]

theorem single_Update_confirm (m : SingleModel) (k : KeyMsg)
    (hk : k.str = "enter" ∨ k.str = " ") :
    m.Update (.key k)
      = match sliceIndex m.Choices m.cursor with
        | .ok s => .ok ({ m with Selected := s }, some Cmd.Quit)
        | .error e => .error e := by
  rcases hk with h | h <;> simp [SingleModel.Update, h, KeyEnter_String]

theorem single_Update_inRange (m : SingleModel) (msg : Msg) (h : m.InRange) :
    ∃ m1 c, m.Update msg = .ok (m1, c) ∧ m1.Choices = m.Choices ∧ m1.InRange := by
  obtain ⟨h0, h1⟩ := h
  obtain ⟨s, -, hs⟩ := sliceIndex_of_inRange m.Choices m.cursor h0 h1
  cases msg with
  | key k =>
    simp only [SingleModel.Update, hs]
    split_ifs <;> simp [SingleModel.InRange] <;> omega
  | error e => exact ⟨m, none, rfl, rfl, h0, h1⟩
  | other t => exact ⟨m, none, rfl, rfl, h0, h1⟩

theorem single_run_inRange (msgs : List Msg) (m : SingleModel) (h : m.InRange) :
    ∃ m1, m.run msgs = .ok m1 ∧ m1.Choices = m.Choices ∧ m1.InRange := by
  induction msgs generalizing m with
  | nil => exact ⟨m, rfl, rfl, h⟩
  | cons msg rest ih =>
    obtain ⟨m1, c, hu, hc, hr⟩ := single_Update_inRange m msg h
    obtain ⟨m2, hrun, hc2, hr2⟩ := ih m1 hr
    exact ⟨m2, by simp [SingleModel.run, hu, hrun], by rw [hc2, hc], hr2⟩

theorem single_Update_navInv (m : SingleModel) (msg : Msg) (hnav : isNavKey msg = true)
    (h : m.NavInv) :
    ∃ m1, m.Update msg = .ok (m1, none) ∧ m1.Choices = m.Choices ∧ m1.NavInv := by
  obtain ⟨h0, h1⟩ := h
  cases msg with
  | key k =>
    simp only [isNavKey, decide_eq_true_eq] at hnav
    rcases hnav with hk | hk | hk | hk <;>
      simp only [SingleModel.Update, hk] <;>
      split_ifs <;> simp_all [SingleModel.NavInv] <;> omega
  | error e => simp [isNavKey] at hnav
  | other t => simp [isNavKey] at hnav

theorem single_run_navInv (msgs : List Msg) (m : SingleModel)
    (hnav : ∀ x ∈ msgs, isNavKey x = true) (h : m.NavInv) :
    ∃ m1, m.run msgs = .ok m1 ∧ m1.Choices = m.Choices ∧ m1.NavInv := by
  induction msgs generalizing m with
  | nil => exact ⟨m, rfl, rfl, h⟩
  | cons msg rest ih =>
    obtain ⟨m1, hu, hc, hr⟩ :=
      single_Update_navInv m msg (hnav msg (List.mem_cons_self _ _)) h
    obtain ⟨m2, hrun, hc2, hr2⟩ :=
      ih m1 (fun x hx => hnav x (List.mem_cons_of_mem _ hx)) hr
    exact ⟨m2, by simp [SingleModel.run, hu, hrun], by rw [hc2, hc], hr2⟩

theorem single_run_append (xs ys : List Msg) (m m1 : SingleModel)
    (h : m.run xs = .ok m1) : m.run (xs ++ ys) = m1.run ys := by
  induction xs generalizing m with
  | nil =>
    simp only [SingleModel.run, Except.ok.injEq] at h
    simp [h]
  | cons x rest ih =>
    simp only [SingleModel.run, List.cons_append] at h ⊢
    cases hx : m.Update x with
    | error e => simp [hx] at h
    | ok r =>
      obtain ⟨m2, c⟩ := r
      simp only [hx] at h ⊢
      exact ih m2 h

theorem single_run_down (k : Nat) (m : SingleModel) (h : m.InRange) :
    m.run (List.replicate k (keyOf "down"))
      = .ok { m with cursor := min (m.cursor + k) ((m.Choices.length : Int) - 1) } := by
  induction k generalizing m with
  | zero =>
    obtain ⟨h0, h1⟩ := h
    have hmin : min m.cursor ((m.Choices.length : Int) - 1) = m.cursor :=
      min_eq_left (by omega)
    simp [SingleModel.run, hmin]
  | succ k ih =>
    obtain ⟨h0, h1⟩ := h
    have hu := single_Update_down m { Typ := .KeyOther 0, str := "down" } (Or.inl rfl)
    simp only [List.replicate_succ, SingleModel.run, keyOf, hu]
    by_cases hc : m.cursor < (m.Choices.length : Int) - 1
    · simp only [hc, if_true]
      have := ih { m with cursor := m.cursor + 1 } ⟨by simp; omega, by simp; omega⟩
      simp only [keyOf] at this
      rw [this]
      simp only [Except.ok.injEq, SingleModel.mk.injEq, true_and, and_true]
      push_cast
      congr 1
      ring
    · simp only [hc, if_false]
      have := ih m ⟨h0, h1⟩
      simp only [keyOf] at this
      rw [this]
      simp only [Except.ok.injEq, SingleModel.mk.injEq, true_and, and_true]
      rw [min_eq_right, min_eq_right] <;> push_cast <;> omega


/-! ### MultipleModel: the map operations and the `esc` loops -/

theorem mem_indexRange (n : Nat) (i : Int) : i ∈ indexRange n ↔ 0 ≤ i ∧ i < (n : Int) := by
  simp only [indexRange, Finset.mem_image, Finset.mem_range]
  constructor
  · rintro ⟨a, ha, rfl⟩
    omega
  · rintro ⟨h0, h1⟩
    exact ⟨i.toNat, by omega, by omega⟩

theorem indexRange_succ (n : Nat) : indexRange (n + 1) = insert (n : Int) (indexRange n) := by
  simp [indexRange, Finset.range_succ, Finset.image_insert]

theorem indexRange_zero : indexRange 0 = ∅ := by
  simp [indexRange]

theorem fold_or_mem (S T : Finset Int) :
    T.fold (· || ·) false (fun i => decide (i ∈ S)) = decide (∃ i ∈ T, i ∈ S) := by
  induction T using Finset.induction_on with
  | empty => simp
  | insert hnot ih =>
    rw [Finset.fold_insert hnot, ih]
    simp [Finset.exists_mem_insert]

theorem somethingSelected_some (S : Finset Int) :
    somethingSelected (some S) = decide S.Nonempty := by
  simp only [somethingSelected, fold_or_mem]
  congr 1
  apply propext
  constructor
  · rintro ⟨i, hi, -⟩
    exact ⟨i, hi⟩
  · rintro ⟨i, hi⟩
    exact ⟨i, hi, hi⟩

theorem escLoop_succ (b : Bool) (sel : Option (Finset Int)) (n : Nat) :
    escLoop b sel (n + 1) = escStep b (escLoop b sel n) n := by
  simp [escLoop, List.range_succ, List.foldl_append]

theorem escLoop_add (S : Finset Int) (n : Nat) :
    escLoop false (some S) n = .ok (some (S ∪ indexRange n)) := by
  induction n with
  | zero => simp [escLoop, indexRange_zero]
  | succ n ih =>
    rw [escLoop_succ, ih]
    simp [escStep, mapAssign, indexRange_succ, Finset.union_insert]

theorem escLoop_delete (S : Finset Int) (n : Nat) :
    escLoop true (some S) n = .ok (some (S \ indexRange n)) := by
  induction n with
  | zero => simp [escLoop, indexRange_zero]
  | succ n ih =>
    rw [escLoop_succ, ih]
    simp [escStep, mapDelete, indexRange_succ, Finset.sdiff_insert]

theorem escLoop_nil_zero (b : Bool) : escLoop b none 0 = .ok none := by
  simp [escLoop]

theorem escLoop_nil_succ (n : Nat) : escLoop false none (n + 1) = .error .nilMapAssign := by
  induction n with
  | zero =>
    rw [escLoop_succ, escLoop_nil_zero]
    simp [escStep, mapAssign]
  | succ n ih =>
    rw [escLoop_succ, ih]
    simp [escStep]

/-! ### MultipleModel: one lemma per key of `Update` -/

theorem multiple_Update_cancel (m : MultipleModel) (k : KeyMsg)
    (hk : k.str = "ctrl+c" ∨ k.str = "q") :
    m.Update (.key k) = .ok ({ m with Interrupt := true }, some Cmd.Quit) := by
  simp [MultipleModel.Update, hk]

theorem multiple_Update_up (m : MultipleModel) (k : KeyMsg)
    (hk : k.str = "up" ∨ k.str = "k") :
    m.Update (.key k)
      = .ok (if m.cursor > 0 then { m with cursor := m.cursor - 1 } else m, none) := by
  rcases hk with h | h <;> simp [MultipleModel.Update, h]

theorem multiple_Update_down (m : MultipleModel) (k : KeyMsg)
    (hk : k.str = "down" ∨ k.str = "j") :
    m.Update (.key k)
      = .ok (if m.cursor < (m.Choices.length : Int) - 1 then
               { m with cursor := m.cursor + 1 } else m, none) := by
  rcases hk with h | h <;> simp [MultipleModel.Update, h]

theorem multiple_Update_enter (m : MultipleModel) (k : KeyMsg) (hk : k.str = "enter") :
    m.Update (.key k) = .ok (m, some Cmd.Quit) := by
  simp [MultipleModel.Update, hk, KeyEnter_String]

theorem multiple_Update_space (m : MultipleModel) (k : KeyMsg) (hk : k.str = " ") :
    m.Update (.key k)
      = if mapHas m.Selected m.cursor then
          .ok ({ m with Selected := mapDelete m.Selected m.cursor }, none)
        else
          match mapAssign m.Selected m.cursor with
          | .ok sel => .ok ({ m with Selected := sel }, none)
          | .error e => .error e := by
  simp [MultipleModel.Update, hk, KeyEnter_String]

theorem multiple_Update_space_some (m : MultipleModel) (k : KeyMsg) (hk : k.str = " ")
    (S : Finset Int) (hS : m.Selected = some S) :
    m.Update (.key k)
      = .ok ({ m with
                Selected := some (if m.cursor ∈ S then S.erase m.cursor else insert m.cursor S) },
             none) := by
  rw [multiple_Update_space m k hk, hS]
  by_cases hc : m.cursor ∈ S <;> simp [mapHas, mapDelete, mapAssign, hc]

theorem multiple_Update_esc (m : MultipleModel) (k : KeyMsg) (hk : k.str = "esc") :
    m.Update (.key k)
      = match escLoop (somethingSelected m.Selected) m.Selected m.Choices.length with
        | .ok sel => .ok ({ m with Selected := sel }, none)
        | .error e => .error e := by
  simp [MultipleModel.Update, hk, KeyEnter_String, KeyEsc_String]

theorem multiple_Update_esc_some (m : MultipleModel) (k : KeyMsg) (hk : k.str = "esc")
    (S : Finset Int) (hS : m.Selected = some S) :
    m.Update (.key k)
      = .ok ({ m with
                Selected := some (if S.Nonempty then S \ indexRange m.Choices.length
                                  else indexRange m.Choices.length) },
             none) := by
  rw [multiple_Update_esc m k hk, hS, somethingSelected_some]
  by_cases hne : S.Nonempty
  · simp [hne, escLoop_delete]
  · have hempty : S = ∅ := Finset.not_nonempty_iff_eq_empty.mp hne
    subst hempty
    simp [escLoop_add]


theorem multiple_Update_notKey (m : MultipleModel) (msg : Msg)
    (h : ∀ k, msg ≠ .key k) : m.Update msg = .ok (m, none) := by
  cases msg with
  | key k => exact absurd rfl (h k)
  | error e => rfl
  | other t => rfl

theorem multiple_Update_otherKey (m : MultipleModel) (k : KeyMsg)
    (h1 : ¬ (k.str = "ctrl+c" ∨ k.str = "q")) (h2 : ¬ (k.str = "up" ∨ k.str = "k"))
    (h3 : ¬ (k.str = "down" ∨ k.str = "j")) (h4 : k.str ≠ "enter") (h5 : k.str ≠ " ")
    (h6 : k.str ≠ "esc") : m.Update (.key k) = .ok (m, none) := by
  simp [MultipleModel.Update, h1, h2, h3, h4, h5, h6, KeyEnter_String, KeyEsc_String]

theorem multiple_Update_navInv (m : MultipleModel) (msg : Msg)
    (hnav : isNavKey msg = true) (h : m.NavInv) :
    ∃ m1, m.Update msg = .ok (m1, none) ∧ m1.Choices = m.Choices ∧ m1.NavInv := by
  obtain ⟨h0, h1⟩ := h
  cases msg with
  | key k =>
    simp only [isNavKey, decide_eq_true_eq] at hnav
    rcases hnav with hk | hk | hk | hk <;>
      simp only [MultipleModel.Update, hk] <;>
      split_ifs <;> simp_all [MultipleModel.NavInv] <;> omega
  | error e => simp [isNavKey] at hnav
  | other t => simp [isNavKey] at hnav

theorem multiple_run_navInv (msgs : List Msg) (m : MultipleModel)
    (hnav : ∀ x ∈ msgs, isNavKey x = true) (h : m.NavInv) :
    ∃ m1, m.run msgs = .ok m1 ∧ m1.Choices = m.Choices ∧ m1.NavInv := by
  induction msgs generalizing m with
  | nil => exact ⟨m, rfl, rfl, h⟩
  | cons msg rest ih =>
    obtain ⟨m1, hu, hc, hr⟩ :=
      multiple_Update_navInv m msg (hnav msg (List.mem_cons_self _ _)) h
    obtain ⟨m2, hrun, hc2, hr2⟩ :=
      ih m1 (fun x hx => hnav x (List.mem_cons_of_mem _ hx)) hr
    exact ⟨m2, by simp [MultipleModel.run, hu, hrun], by rw [hc2, hc], hr2⟩

theorem multiple_Update_inv (m : MultipleModel) (msg : Msg) (h : m.Inv) :
    ∃ m1 c, m.Update msg = .ok (m1, c) ∧ m1.Choices = m.Choices ∧ m1.Inv := by
  obtain ⟨⟨S, hS, hin⟩, h0, h1⟩ := h
  cases msg with
  | error e => exact ⟨m, none, rfl, rfl, ⟨S, hS, hin⟩, h0, h1⟩
  | other t => exact ⟨m, none, rfl, rfl, ⟨S, hS, hin⟩, h0, h1⟩
  | key k =>
    by_cases c1 : k.str = "ctrl+c" ∨ k.str = "q"
    · exact ⟨_, _, multiple_Update_cancel m k c1, rfl, ⟨S, hS, hin⟩, h0, h1⟩
    by_cases c2 : k.str = "up" ∨ k.str = "k"
    · refine ⟨_, _, multiple_Update_up m k c2, ?_, ?_⟩
      · split_ifs <;> rfl
      · split_ifs
        · exact ⟨⟨S, hS, hin⟩, by simp; omega, by simp; omega⟩
        · exact ⟨⟨S, hS, hin⟩, h0, h1⟩
    by_cases c3 : k.str = "down" ∨ k.str = "j"
    · refine ⟨_, _, multiple_Update_down m k c3, ?_, ?_⟩
      · split_ifs <;> rfl
      · split_ifs
        · exact ⟨⟨S, hS, hin⟩, by simp; omega, by simp; omega⟩
        · exact ⟨⟨S, hS, hin⟩, h0, h1⟩
    by_cases c4 : k.str = "enter"
    · exact ⟨_, _, multiple_Update_enter m k c4, rfl, ⟨S, hS, hin⟩, h0, h1⟩
    by_cases c5 : k.str = " "
    · refine ⟨_, _, multiple_Update_space_some m k c5 S hS, rfl, ⟨_, rfl, ?_⟩, h0, h1⟩
      intro i hi
      split_ifs at hi
      · exact hin i (Finset.mem_of_mem_erase hi)
      · rcases Finset.mem_insert.mp hi with rfl | hi
        · exact ⟨h0, h1⟩
        · exact hin i hi
    by_cases c6 : k.str = "esc"
    · refine ⟨_, _, multiple_Update_esc_some m k c6 S hS, rfl, ⟨_, rfl, ?_⟩, h0, h1⟩
      intro i hi
      split_ifs at hi
      · exact hin i (Finset.mem_sdiff.mp hi).1
      · exact (mem_indexRange _ _).mp hi
    · exact ⟨_, _, multiple_Update_otherKey m k c1 c2 c3 c4 c5 c6, rfl,
        ⟨S, hS, hin⟩, h0, h1⟩

theorem multiple_run_inv (msgs : List Msg) (m : MultipleModel) (h : m.Inv) :
    ∃ m1, m.run msgs = .ok m1 ∧ m1.Choices = m.Choices ∧ m1.Inv := by
  induction msgs generalizing m with
  | nil => exact ⟨m, rfl, rfl, h⟩
  | cons msg rest ih =>
    obtain ⟨m1, c, hu, hc, hr⟩ := multiple_Update_inv m msg h
    obtain ⟨m2, hrun, hc2, hr2⟩ := ih m1 hr
    exact ⟨m2, by simp [MultipleModel.run, hu, hrun], by rw [hc2, hc], hr2⟩


/-! ## The claims -/

/-- Claim C1: in a `SingleModel` state whose cursor is a valid index of the
choice list, `Update` on a confirm key (`enter` or space) returns the state with
`Selected` set to `Choices[cursor]` and every other field as it was, together
with the single command `tea.Quit`; and in every state reached from `NewSingle`
on a non-empty choice list by any sequence of events the cursor is a valid
index, so that the indexing `Choices[cursor]` of the confirm case succeeds. -/
theorem single_confirm_selects_cursor_choice (m : SingleModel) (k : KeyMsg)
    (choices : List String) (title message : String) (msgs : List Msg)
    (hk : k.str = "enter" ∨ k.str = " ")
    (h0 : 0 ≤ m.cursor) (h1 : m.cursor < (m.Choices.length : Int)) (hne : choices ≠ []) :
    (∃ s, m.Choices[m.cursor.toNat]? = some s ∧
        m.Update (.key k) = .ok ({ m with Selected := s }, some Cmd.Quit)) ∧
    (∃ m1 s, (NewSingle choices title message).run msgs = .ok m1 ∧ m1.Choices = choices ∧
        0 ≤ m1.cursor ∧ m1.cursor < (choices.length : Int) ∧
        sliceIndex m1.Choices m1.cursor = .ok s ∧
        m1.Update (.key k) = .ok ({ m1 with Selected := s }, some Cmd.Quit)) := by
  constructor
  · obtain ⟨s, hs, hidx⟩ := sliceIndex_of_inRange m.Choices m.cursor h0 h1
    exact ⟨s, hs, by rw [single_Update_confirm m k hk, hidx]⟩
  · have hlen : 0 < choices.length := List.length_pos.mpr hne
    have hinit : (NewSingle choices title message).InRange := by
      simp only [SingleModel.InRange, NewSingle]
      omega
    obtain ⟨m1, hrun, hc, hr0, hr1⟩ := single_run_inRange msgs _ hinit
    have hc1 : m1.Choices = choices := by rw [hc]; rfl
    obtain ⟨s, -, hidx⟩ := sliceIndex_of_inRange m1.Choices m1.cursor hr0 hr1
    refine ⟨m1, s, hrun, hc1, hr0, ?_, hidx, ?_⟩
    · rw [← hc1]; exact hr1
    · rw [single_Update_confirm m1 k hk, hidx]

theorem single_confirm_selects_cursor_choice_witness :
    ((keyOf "enter" = .key { Typ := .KeyOther 0, str := "enter" }) ∧
      (0 : Int) ≤ exampleSingle.cursor ∧
      exampleSingle.cursor < (exampleSingle.Choices.length : Int) ∧
      (["a", "b"] : List String) ≠ []) ∧
    ((∃ s, exampleSingle.Choices[exampleSingle.cursor.toNat]? = some s ∧
        exampleSingle.Update (.key { Typ := .KeyOther 0, str := "enter" })
          = .ok ({ exampleSingle with Selected := s }, some Cmd.Quit)) ∧
     (∃ m1 s, (NewSingle ["a", "b"] "t" "m").run [keyOf "down", keyOf "x", keyOf "up"] = .ok m1 ∧
        m1.Choices = ["a", "b"] ∧ 0 ≤ m1.cursor ∧
        m1.cursor < ((["a", "b"] : List String).length : Int) ∧
        sliceIndex m1.Choices m1.cursor = .ok s ∧
        m1.Update (.key { Typ := .KeyOther 0, str := "enter" })
          = .ok ({ m1 with Selected := s }, some Cmd.Quit))) :=
  ⟨⟨rfl, by decide, by decide, by decide⟩,
   single_confirm_selects_cursor_choice exampleSingle
     { Typ := .KeyOther 0, str := "enter" } ["a", "b"] "t" "m"
     [keyOf "down", keyOf "x", keyOf "up"] (Or.inl rfl) (by decide) (by decide) (by decide)⟩

/-- Claim C2: starting from `NewSingle` (respectively `NewMultiple`) on any
choice list of length `N`, after every event of any sequence of up/down key
events (`up`, `k`, `down`, `j`) the run has not failed and the cursor satisfies
`0 ≤ cursor ≤ N-1` when `N ≥ 1` and is still `0` when `N = 0`. -/
theorem cursor_stays_in_bounds (choices : List String) (title message : String)
    (msgs : List Msg) (n : Nat) (hnav : ∀ x ∈ msgs, isNavKey x = true) :
    (∃ m, (NewSingle choices title message).run (msgs.take n) = .ok m ∧ m.Choices = choices ∧
        (1 ≤ choices.length → 0 ≤ m.cursor ∧ m.cursor ≤ (choices.length : Int) - 1) ∧
        (choices.length = 0 → m.cursor = 0)) ∧
    (∃ m, (NewMultiple choices title message).run (msgs.take n) = .ok m ∧ m.Choices = choices ∧
        (1 ≤ choices.length → 0 ≤ m.cursor ∧ m.cursor ≤ (choices.length : Int) - 1) ∧
        (choices.length = 0 → m.cursor = 0)) := by
  have htake : ∀ x ∈ msgs.take n, isNavKey x = true :=
    fun x hx => hnav x (List.mem_of_mem_take hx)
  constructor
  · have hinit : (NewSingle choices title message).NavInv := ⟨le_refl _, Or.inl rfl⟩
    obtain ⟨m, hrun, hc, hr0, hr1⟩ := single_run_navInv (msgs.take n) _ htake hinit
    have hc1 : m.Choices = choices := by rw [hc]; rfl
    rw [hc1] at hr1
    exact ⟨m, hrun, hc1, fun _ => by omega, fun _ => by omega⟩
  · have hinit : (NewMultiple choices title message).NavInv := ⟨le_refl _, Or.inl rfl⟩
    obtain ⟨m, hrun, hc, hr0, hr1⟩ := multiple_run_navInv (msgs.take n) _ htake hinit
    have hc1 : m.Choices = choices := by rw [hc]; rfl
    rw [hc1] at hr1
    exact ⟨m, hrun, hc1, fun _ => by omega, fun _ => by omega⟩

theorem cursor_stays_in_bounds_witness :
    (∀ x ∈ [keyOf "down", keyOf "j", keyOf "down", keyOf "up"], isNavKey x = true) ∧
    ((∃ m, (NewSingle ["a", "b"] "t" "m").run
          ([keyOf "down", keyOf "j", keyOf "down", keyOf "up"].take 3) = .ok m ∧
        m.Choices = ["a", "b"] ∧
        (1 ≤ (["a", "b"] : List String).length →
          0 ≤ m.cursor ∧ m.cursor ≤ ((["a", "b"] : List String).length : Int) - 1) ∧
        ((["a", "b"] : List String).length = 0 → m.cursor = 0)) ∧
     (∃ m, (NewMultiple ["a", "b"] "t" "m").run
          ([keyOf "down", keyOf "j", keyOf "down", keyOf "up"].take 3) = .ok m ∧
        m.Choices = ["a", "b"] ∧
        (1 ≤ (["a", "b"] : List String).length →
          0 ≤ m.cursor ∧ m.cursor ≤ ((["a", "b"] : List String).length : Int) - 1) ∧
        ((["a", "b"] : List String).length = 0 → m.cursor = 0))) :=
  ⟨by decide,
   cursor_stays_in_bounds ["a", "b"] "t" "m"
     [keyOf "down", keyOf "j", keyOf "down", keyOf "up"] 3 (by decide)⟩


/-- Claim C3: on the empty choice list the invariant fails.  From
`NewMultiple([], "", "")` the space key records index `0` in `Selected`, although
the index range `[0, N-1]` is empty for `N = 0`. -/
theorem multiple_space_on_empty_list_selects_zero :
    (NewMultiple [] "" "").run [keyOf " "]
        = .ok { Selected := some {0}, Interrupt := false, Choices := [], cursor := 0,
                Message := "", Title := "" } ∧
      (0 : Int) ∉ indexRange ([] : List String).length := by
  constructor
  · decide
  · simp [indexRange_zero]

/-- Companion fact on non-empty choice lists, where the invariant does hold.
After any sequence of events from `NewMultiple` the run has not failed, the
selection map is initialised and every index in it lies in `[0, N-1]`. -/
theorem multiple_selected_in_range_of_nonempty (choices : List String)
    (title message : String) (msgs : List Msg) (hne : choices ≠ []) :
    ∃ m S, (NewMultiple choices title message).run msgs = .ok m ∧ m.Choices = choices ∧
      m.Selected = some S ∧ (∀ i ∈ S, 0 ≤ i ∧ i ≤ (choices.length : Int) - 1) ∧
      0 ≤ m.cursor ∧ m.cursor ≤ (choices.length : Int) - 1 := by
  have hlen : 0 < choices.length := List.length_pos.mpr hne
  have hinit : (NewMultiple choices title message).Inv := by
    refine ⟨⟨∅, rfl, by simp⟩, ?_, ?_⟩ <;> simp only [NewMultiple] <;> omega
  obtain ⟨m, hrun, hc, ⟨S, hS, hin⟩, hr0, hr1⟩ := multiple_run_inv msgs _ hinit
  have hc1 : m.Choices = choices := by rw [hc]; rfl
  rw [hc1] at hr1 hin
  refine ⟨m, S, hrun, hc1, hS, ?_, hr0, by omega⟩
  intro i hi
  have := hin i hi
  omega

theorem multiple_selected_in_range_of_nonempty_witness :
    (["a", "b"] : List String) ≠ [] ∧
    ∃ m S, (NewMultiple ["a", "b"] "t" "m").run [keyOf " ", keyOf "down", keyOf "esc"] = .ok m ∧
      m.Choices = ["a", "b"] ∧ m.Selected = some S ∧
      (∀ i ∈ S, 0 ≤ i ∧ i ≤ ((["a", "b"] : List String).length : Int) - 1) ∧
      0 ≤ m.cursor ∧ m.cursor ≤ ((["a", "b"] : List String).length : Int) - 1 :=
  ⟨by decide,
   multiple_selected_in_range_of_nonempty ["a", "b"] "t" "m"
     [keyOf " ", keyOf "down", keyOf "esc"] (by decide)⟩

/-- Claim C4: a state reached from `NewMultiple` on which `esc` does not clear a
non-empty selection.  From `NewMultiple([], "", "")` the space key gives
`Selected = {0}`; `Update` with `esc` then returns the same state, `Selected`
still `{0}`, because the clearing loop only deletes the indices of `Choices`. -/
theorem multiple_esc_on_empty_list_keeps_selection :
    (NewMultiple [] "" "").run [keyOf " "]
        = .ok { Selected := some {0}, Interrupt := false, Choices := [], cursor := 0,
                Message := "", Title := "" } ∧
      MultipleModel.Update { Selected := some {0}, Interrupt := false, Choices := [],
                             cursor := 0, Message := "", Title := "" } (keyOf "esc")
        = .ok ({ Selected := some {0}, Interrupt := false, Choices := [], cursor := 0,
                 Message := "", Title := "" }, none) := by
  constructor <;> decide

/-- Companion fact on non-empty choice lists, where the toggle is as described.  In
every state reached from `NewMultiple`, `esc` empties a non-empty `Selected`
and turns an empty one into the full index range; the other fields are
unchanged and no command is returned. -/
theorem multiple_esc_toggle_of_nonempty (choices : List String) (title message : String)
    (msgs : List Msg) (k : KeyMsg) (hne : choices ≠ []) (hk : k.str = "esc") :
    ∃ m S, (NewMultiple choices title message).run msgs = .ok m ∧ m.Selected = some S ∧
      m.Update (.key k)
        = .ok ({ m with
                  Selected := some (if S.Nonempty then ∅ else indexRange choices.length) },
               none) := by
  have hlen : 0 < choices.length := List.length_pos.mpr hne
  have hinit : (NewMultiple choices title message).Inv := by
    refine ⟨⟨∅, rfl, by simp⟩, ?_, ?_⟩ <;> simp only [NewMultiple] <;> omega
  obtain ⟨m, hrun, hc, ⟨S, hS, hin⟩, -, -⟩ := multiple_run_inv msgs _ hinit
  have hc1 : m.Choices = choices := by rw [hc]; rfl
  refine ⟨m, S, hrun, hS, ?_⟩
  rw [multiple_Update_esc_some m k hk S hS, hc1]
  have hsub : S \ indexRange choices.length = ∅ := by
    rw [Finset.sdiff_eq_empty_iff_subset]
    intro i hi
    rw [← hc1]
    exact (mem_indexRange _ _).mpr (hin i hi)
  rw [hsub]

theorem multiple_esc_toggle_of_nonempty_witness :
    ((["a", "b"] : List String) ≠ [] ∧ "esc" = "esc") ∧
    ∃ m S, (NewMultiple ["a", "b"] "t" "m").run [keyOf " ", keyOf "down"] = .ok m ∧
      m.Selected = some S ∧
      m.Update (.key { Typ := .KeyEsc, str := "esc" })
        = .ok ({ m with
                  Selected := some (if S.Nonempty then ∅
                                    else indexRange (["a", "b"] : List String).length) },
               none) :=
  ⟨⟨by decide, rfl⟩,
   multiple_esc_toggle_of_nonempty ["a", "b"] "t" "m" [keyOf " ", keyOf "down"]
     { Typ := .KeyEsc, str := "esc" } (by decide) rfl⟩


/-- The selection after two `esc` presses on an initialised selection `S`, with
`R` the index range of the choice list, is `S` again exactly when `S` is `R` or
is disjoint from `R`. -/
theorem esc_twice_selected (S R : Finset Int) :
    (if (if S.Nonempty then S \ R else R).Nonempty then (if S.Nonempty then S \ R else R) \ R
      else R) = S ↔ (S = R ∨ Disjoint S R) := by
  by_cases hS : S.Nonempty
  · simp only [hS, if_true]
    by_cases hSR : (S \ R).Nonempty
    · simp only [hSR, if_true, sdiff_idem]
      have hne : S ≠ R := by
        rintro rfl
        simp at hSR
      simp [hne, sdiff_eq_left]
    · simp only [hSR, if_false]
      have hsub : S ⊆ R := by
        rw [← Finset.sdiff_eq_empty_iff_subset]
        exact Finset.not_nonempty_iff_eq_empty.mp hSR
      constructor
      · intro h
        exact Or.inl h.symm
      · rintro (h | h)
        · exact h.symm
        · exfalso
          obtain ⟨i, hi⟩ := hS
          exact (Finset.disjoint_left.mp h hi) (hsub hi)
  · have hempty : S = ∅ := Finset.not_nonempty_iff_eq_empty.mp hS
    subst hempty
    by_cases hR : R.Nonempty
    · simp [hR]
    · have hRe : R = ∅ := Finset.not_nonempty_iff_eq_empty.mp hR
      subst hRe
      simp

/-- Claim C5, as stated, fails: on the state with choices `a, b, c` and
`Selected = {0}` (the state after one space press), two `esc` presses in a row
give `Selected = {0, 1, 2}`, not `{0}`. -/
theorem esc_twice_does_not_restore_one_selected :
    ∃ m2, exampleMultiple.run [keyOf "esc", keyOf "esc"] = .ok m2 ∧
      m2.Selected = some (indexRange 3) ∧ exampleMultiple.Selected = some {0} ∧
      m2.Selected ≠ exampleMultiple.Selected := by
  have hsub : ({0} : Finset Int) \ indexRange 3 = ∅ := by
    rw [Finset.sdiff_eq_empty_iff_subset]
    intro i hi
    rw [Finset.mem_singleton] at hi
    subst hi
    exact (mem_indexRange 3 0).mpr (by decide)
  have e1 : exampleMultiple.Update (keyOf "esc")
      = .ok ({ exampleMultiple with Selected := some ∅ }, none) := by
    rw [keyOf, multiple_Update_esc_some exampleMultiple _ rfl {0} rfl]
    have hlen : exampleMultiple.Choices.length = 3 := rfl
    rw [hlen, hsub]
    simp
  have e2 : MultipleModel.Update { exampleMultiple with Selected := some ∅ } (keyOf "esc")
      = .ok ({ exampleMultiple with Selected := some (indexRange 3) }, none) := by
    rw [keyOf, multiple_Update_esc_some _ _ rfl ∅ rfl]
    have hlen : exampleMultiple.Choices.length = 3 := rfl
    simp [hlen]
  refine ⟨{ exampleMultiple with Selected := some (indexRange 3) }, ?_, rfl, rfl, ?_⟩
  · simp only [MultipleModel.run, e1, e2]
  · intro h
    have h1 : (1 : Int) ∈ indexRange 3 := (mem_indexRange 3 1).mpr (by decide)
    have h2 : indexRange 3 = {0} := Option.some.inj h
    rw [h2] at h1
    simp at h1

/-- Claim C5, amended: in a `MultipleModel` state whose selection map is
initialised, two `esc` presses in a row both succeed, return no command, change
no field other than `Selected`, and bring `Selected` back to its original value
exactly when that value is the full index range `{0, ..., N-1}` or contains no
index of `[0, N-1]` (in particular when it is empty). -/
theorem esc_twice_restores_iff (m : MultipleModel) (k : KeyMsg) (S : Finset Int)
    (hk : k.str = "esc") (hS : m.Selected = some S) :
    ∃ S2, (∃ m1, m.Update (.key k) = .ok (m1, none) ∧
            m1.Update (.key k) = .ok ({ m with Selected := some S2 }, none)) ∧
      (S2 = S ↔ (S = indexRange m.Choices.length ∨ Disjoint S (indexRange m.Choices.length))) := by
  have h1 := multiple_Update_esc_some m k hk S hS
  refine ⟨_, ⟨_, h1, ?_⟩, esc_twice_selected S (indexRange m.Choices.length)⟩
  rw [multiple_Update_esc_some _ k hk _ rfl]

theorem esc_twice_restores_iff_witness :
    ("esc" = "esc" ∧ (NewMultiple ["a", "b"] "t" "m").Selected = some ∅) ∧
    ∃ S2, (∃ m1, (NewMultiple ["a", "b"] "t" "m").Update (.key { Typ := .KeyEsc, str := "esc" })
              = .ok (m1, none) ∧
            m1.Update (.key { Typ := .KeyEsc, str := "esc" })
              = .ok ({ NewMultiple ["a", "b"] "t" "m" with Selected := some S2 }, none)) ∧
      (S2 = ∅ ↔ ((∅ : Finset Int) = indexRange (NewMultiple ["a", "b"] "t" "m").Choices.length ∨
          Disjoint (∅ : Finset Int)
            (indexRange (NewMultiple ["a", "b"] "t" "m").Choices.length))) :=
  ⟨⟨rfl, rfl⟩,
   esc_twice_restores_iff (NewMultiple ["a", "b"] "t" "m") { Typ := .KeyEsc, str := "esc" } ∅
     rfl rfl⟩


/-- Claim C6: for every `SingleModel` state and every `MultipleModel` state,
`Update` on a cancel key (`ctrl+c` or `q`) returns the state with `Interrupt`
set to `true` and every other field unchanged, together with `tea.Quit`. -/
theorem cancel_sets_interrupt_and_quits (m : SingleModel) (mm : MultipleModel) (k : KeyMsg)
    (hk : k.str = "ctrl+c" ∨ k.str = "q") :
    m.Update (.key k) = .ok ({ m with Interrupt := true }, some Cmd.Quit) ∧
    mm.Update (.key k) = .ok ({ mm with Interrupt := true }, some Cmd.Quit) :=
  ⟨single_Update_cancel m k hk, multiple_Update_cancel mm k hk⟩

theorem cancel_sets_interrupt_and_quits_witness :
    ("q" = "ctrl+c" ∨ "q" = "q") ∧
    (exampleSingle.Update (.key { Typ := .KeyOther 0, str := "q" })
        = .ok ({ exampleSingle with Interrupt := true }, some Cmd.Quit) ∧
     exampleMultiple.Update (.key { Typ := .KeyOther 0, str := "q" })
        = .ok ({ exampleMultiple with Interrupt := true }, some Cmd.Quit)) :=
  ⟨Or.inr rfl,
   cancel_sets_interrupt_and_quits exampleSingle exampleMultiple
     { Typ := .KeyOther 0, str := "q" } (Or.inr rfl)⟩

/-- Claim C7: on the empty choice list the confirm keys make `Update` fail.
For `NewSingle([], "", "")`, `Update` with `enter` and with space evaluates
`m.Choices[0]` on an empty slice, an index-out-of-range panic, instead of
returning a state. -/
theorem single_confirm_on_empty_list_panics :
    (NewSingle [] "" "").Update (keyOf "enter") = .error .indexOutOfRange ∧
    (NewSingle [] "" "").Update (keyOf " ") = .error .indexOutOfRange ∧
    (NewSingle [] "" "").run [keyOf "down", keyOf "down", keyOf "enter"]
      = .error .indexOutOfRange := by
  refine ⟨?_, ?_, ?_⟩ <;> decide

/-- Claim C8: from `NewSingle` on a non-empty choice list of length `N`, `k`
presses of the down key leave the cursor at `min(k, N-1)`, and the enter key
then sets `Selected = Choices[min(k, N-1)]` and returns `tea.Quit`. -/
theorem down_k_times_then_enter (choices : List String) (title message : String) (k : Nat)
    (hne : choices ≠ []) :
    ∃ m s, (NewSingle choices title message).run (List.replicate k (keyOf "down")) = .ok m ∧
      m.cursor = ((min k (choices.length - 1) : Nat) : Int) ∧
      choices[min k (choices.length - 1)]? = some s ∧
      m.Update (keyOf "enter") = .ok ({ m with Selected := s }, some Cmd.Quit) ∧
      (NewSingle choices title message).run (List.replicate k (keyOf "down") ++ [keyOf "enter"])
        = .ok { NewSingle choices title message with
                  cursor := ((min k (choices.length - 1) : Nat) : Int), Selected := s } := by
  have hlen : 0 < choices.length := List.length_pos.mpr hne
  have hinit : (NewSingle choices title message).InRange := by
    simp only [SingleModel.InRange, NewSingle]
    omega
  have hrun := single_run_down k _ hinit
  have hcur : min ((NewSingle choices title message).cursor + (k : Int))
      (((NewSingle choices title message).Choices.length : Int) - 1)
      = ((min k (choices.length - 1) : Nat) : Int) := by
    simp only [NewSingle]
    omega
  rw [hcur] at hrun
  have hlt : min k (choices.length - 1) < choices.length := by omega
  have hidx : sliceIndex choices ((min k (choices.length - 1) : Nat) : Int)
      = .ok choices[min k (choices.length - 1)] := by
    have hnn : (0 : Int) ≤ ((min k (choices.length - 1) : Nat) : Int) := Int.natCast_nonneg _
    have hto : (((min k (choices.length - 1) : Nat) : Int)).toNat = min k (choices.length - 1) :=
      Int.toNat_natCast _
    rw [sliceIndex, if_pos hnn, hto, List.getElem?_eq_getElem hlt]
  have hupd : SingleModel.Update
      { NewSingle choices title message with
          cursor := ((min k (choices.length - 1) : Nat) : Int) } (keyOf "enter")
      = .ok ({ NewSingle choices title message with
                 cursor := ((min k (choices.length - 1) : Nat) : Int),
                 Selected := choices[min k (choices.length - 1)] }, some Cmd.Quit) := by
    rw [keyOf, single_Update_confirm _ _ (Or.inl rfl)]
    simp only [NewSingle, hidx]
  refine ⟨_, choices[min k (choices.length - 1)], hrun, rfl,
    List.getElem?_eq_getElem hlt, hupd, ?_⟩
  rw [single_run_append _ _ _ _ hrun]
  simp only [SingleModel.run, hupd]

theorem down_k_times_then_enter_witness :
    (["red", "green", "blue"] : List String) ≠ [] ∧
    ∃ m s, (NewSingle ["red", "green", "blue"] "t" "m").run (List.replicate 2 (keyOf "down"))
        = .ok m ∧
      m.cursor = ((min 2 ((["red", "green", "blue"] : List String).length - 1) : Nat) : Int) ∧
      (["red", "green", "blue"] : List String)[
        min 2 ((["red", "green", "blue"] : List String).length - 1)]? = some s ∧
      m.Update (keyOf "enter") = .ok ({ m with Selected := s }, some Cmd.Quit) ∧
      (NewSingle ["red", "green", "blue"] "t" "m").run
          (List.replicate 2 (keyOf "down") ++ [keyOf "enter"])
        = .ok { NewSingle ["red", "green", "blue"] "t" "m" with
                  cursor := ((min 2 ((["red", "green", "blue"] : List String).length - 1)
                    : Nat) : Int),
                  Selected := s } :=
  ⟨by decide, down_k_times_then_enter ["red", "green", "blue"] "t" "m" 2 (by decide)⟩


/-- Scenario A of the specification, evaluated: choices red, green, blue and
the keys down, down, enter end with `Selected = "blue"`. -/
theorem scenario_A_selects_blue :
    (NewSingle ["red", "green", "blue"] "t" "m").run [keyOf "down", keyOf "down", keyOf "enter"]
      = .ok { Selected := "blue", Interrupt := false, Choices := ["red", "green", "blue"],
              cursor := 2, Message := "m", Title := "t" } := by
  decide

/-- Claim C9, as stated, fails: on a `MultipleModel` whose `Selected` is the nil
map (a struct literal that leaves the field out) the space key panics on the
assignment `m.Selected[m.cursor] = struct{}{}` instead of adding the index. -/
theorem space_on_nil_map_panics :
    exampleNilMultiple.Selected = none ∧
    exampleNilMultiple.Update (keyOf " ") = .error .nilMapAssign := by
  constructor <;> decide

/-- Claim C9, amended: in a `MultipleModel` state whose selection map is
initialised (as `NewMultiple` builds it), `Update` on the space key returns no
command and a state that differs only in `Selected`, where the membership of
the cursor index is flipped and the membership of every other index is as
before; a second space press on that state returns the original state. -/
theorem space_toggles_cursor_index (m : MultipleModel) (k : KeyMsg) (S : Finset Int)
    (hk : k.str = " ") (hS : m.Selected = some S) :
    ∃ S1, m.Update (.key k) = .ok ({ m with Selected := some S1 }, none) ∧
      (m.cursor ∈ S1 ↔ m.cursor ∉ S) ∧
      (∀ i, i ≠ m.cursor → (i ∈ S1 ↔ i ∈ S)) ∧
      MultipleModel.Update { m with Selected := some S1 } (.key k) = .ok (m, none) := by
  refine ⟨_, multiple_Update_space_some m k hk S hS, ?_, ?_, ?_⟩
  · by_cases hc : m.cursor ∈ S <;> simp [hc]
  · intro i hi
    by_cases hc : m.cursor ∈ S <;> simp [hc, hi]
  · rw [multiple_Update_space_some _ k hk _ rfl]
    obtain ⟨sel, intr, ch, cur, msg, ttl⟩ := m
    simp only at hS
    subst hS
    by_cases hc : cur ∈ S
    · simp [hc, Finset.insert_erase]
    · simp [hc, Finset.erase_insert]

theorem space_toggles_cursor_index_witness :
    (" " = " " ∧ exampleMultiple.Selected = some {0}) ∧
    ∃ S1, exampleMultiple.Update (.key { Typ := .KeyOther 0, str := " " })
        = .ok ({ exampleMultiple with Selected := some S1 }, none) ∧
      (exampleMultiple.cursor ∈ S1 ↔ exampleMultiple.cursor ∉ ({0} : Finset Int)) ∧
      (∀ i, i ≠ exampleMultiple.cursor → (i ∈ S1 ↔ i ∈ ({0} : Finset Int))) ∧
      MultipleModel.Update { exampleMultiple with Selected := some S1 }
          (.key { Typ := .KeyOther 0, str := " " })
        = .ok (exampleMultiple, none) :=
  ⟨⟨rfl, rfl⟩,
   space_toggles_cursor_index exampleMultiple { Typ := .KeyOther 0, str := " " } {0} rfl rfl⟩

/-- Claim C10: for every `MultipleModel` state, `Update` on the enter key
returns `tea.Quit` and the state itself, unchanged in every field; `Update` on
the space key never returns `tea.Quit`: it returns no command, or panics on a
nil selection map. -/
theorem multiple_enter_quits_space_does_not (m : MultipleModel) (k : KeyMsg) :
    (k.str = "enter" → m.Update (.key k) = .ok (m, some Cmd.Quit)) ∧
    (k.str = " " →
      (m.Update (.key k) = .error .nilMapAssign ∨ ∃ m1, m.Update (.key k) = .ok (m1, none)) ∧
      ∀ m1, m.Update (.key k) ≠ .ok (m1, some Cmd.Quit)) := by
  refine ⟨multiple_Update_enter m k, fun hk => ?_⟩
  have hcases : m.Update (.key k) = .error .nilMapAssign ∨
      ∃ m1, m.Update (.key k) = .ok (m1, none) := by
    cases hS : m.Selected with
    | none =>
      left
      rw [multiple_Update_space m k hk, hS]
      simp [mapHas, mapAssign]
    | some S =>
      right
      exact ⟨_, multiple_Update_space_some m k hk S hS⟩
  refine ⟨hcases, fun m1 h => ?_⟩
  rcases hcases with he | ⟨m2, hm2⟩
  · rw [he] at h
    exact Except.noConfusion h
  · rw [hm2] at h
    simp at h

theorem multiple_enter_quits_space_does_not_witness :
    ("enter" = "enter" ∧ " " = " ") ∧
    (exampleMultiple.Update (.key { Typ := .KeyEnter, str := "enter" })
        = .ok (exampleMultiple, some Cmd.Quit)) ∧
    ((exampleMultiple.Update (.key { Typ := .KeyOther 0, str := " " }) = .error .nilMapAssign ∨
        ∃ m1, exampleMultiple.Update (.key { Typ := .KeyOther 0, str := " " }) = .ok (m1, none)) ∧
      ∀ m1, exampleMultiple.Update (.key { Typ := .KeyOther 0, str := " " })
        ≠ .ok (m1, some Cmd.Quit)) :=
  ⟨⟨rfl, rfl⟩,
   (multiple_enter_quits_space_does_not exampleMultiple { Typ := .KeyEnter, str := "enter" }).1
     rfl,
   (multiple_enter_quits_space_does_not exampleMultiple { Typ := .KeyOther 0, str := " " }).2
     rfl⟩


/-! ## Sequences of `Update` calls on a `SingleModel` and the terminal flags -/

theorem sliceIndex_error_eq (xs : List String) (i : Int) (e : Panic)
    (h : sliceIndex xs i = .error e) : e = .indexOutOfRange := by
  unfold sliceIndex at h
  split_ifs at h
  · cases hx : xs[i.toNat]? with
    | none =>
      rw [hx] at h
      exact (Except.error.inj h).symm
    | some s =>
      rw [hx] at h
      exact Except.noConfusion h
  · exact (Except.error.inj h).symm

theorem single_Update_notKey (m : SingleModel) (msg : Msg) (h : ∀ k, msg ≠ .key k) :
    m.Update msg = .ok (m, none) := by
  cases msg with
  | key k => exact absurd rfl (h k)
  | error e => rfl
  | other t => rfl

theorem single_Update_otherKey (m : SingleModel) (k : KeyMsg)
    (h1 : ¬ (k.str = "ctrl+c" ∨ k.str = "q")) (h2 : ¬ (k.str = "up" ∨ k.str = "k"))
    (h3 : ¬ (k.str = "down" ∨ k.str = "j")) (h4 : ¬ (k.str = "enter" ∨ k.str = " ")) :
    m.Update (.key k) = .ok (m, none) := by
  simp only [not_or] at h1 h2 h3 h4
  simp [SingleModel.Update, h1, h2, h3, h4, KeyEnter_String]

theorem single_Update_error_eq (m : SingleModel) (msg : Msg) (e : Panic)
    (h : m.Update msg = .error e) : e = .indexOutOfRange := by
  cases msg with
  | error x => exact Except.noConfusion h
  | other t => exact Except.noConfusion h
  | key k =>
    by_cases c1 : k.str = "ctrl+c" ∨ k.str = "q"
    · rw [single_Update_cancel m k c1] at h
      exact Except.noConfusion h
    by_cases c2 : k.str = "up" ∨ k.str = "k"
    · rw [single_Update_up m k c2] at h
      exact Except.noConfusion h
    by_cases c3 : k.str = "down" ∨ k.str = "j"
    · rw [single_Update_down m k c3] at h
      exact Except.noConfusion h
    by_cases c4 : k.str = "enter" ∨ k.str = " "
    · rw [single_Update_confirm m k c4] at h
      cases hs : sliceIndex m.Choices m.cursor with
      | error e1 =>
        rw [hs] at h
        have he : e1 = e := Except.error.inj h
        rw [← he]
        exact sliceIndex_error_eq _ _ _ hs
      | ok s =>
        rw [hs] at h
        exact Except.noConfusion h
    · rw [single_Update_otherKey m k c1 c2 c3 c4] at h
      exact Except.noConfusion h

theorem single_Update_running (m m1 : SingleModel) (msg : Msg) (c : Option Cmd)
    (hs : m.Selected = "") (hi : m.Interrupt = false) (h : m.Update msg = .ok (m1, c)) :
    (c = some Cmd.Quit → m1.Selected = "" ∨ m1.Interrupt = false) ∧
    (c ≠ some Cmd.Quit → m1.Selected = "" ∧ m1.Interrupt = false) := by
  have hsame : ∀ m2 : SingleModel, ∀ c2 : Option Cmd,
      m2.Selected = "" → m2.Interrupt = false → c2 = none →
      Except.ok (ε := Panic) (m2, c2) = .ok (m1, c) →
      (c = some Cmd.Quit → m1.Selected = "" ∨ m1.Interrupt = false) ∧
      (c ≠ some Cmd.Quit → m1.Selected = "" ∧ m1.Interrupt = false) := by
    intro m2 c2 h2s h2i h2c heq
    simp only [Except.ok.injEq, Prod.mk.injEq] at heq
    obtain ⟨rfl, rfl⟩ := heq
    exact ⟨fun _ => Or.inl h2s, fun _ => ⟨h2s, h2i⟩⟩
  cases msg with
  | error x => exact hsame m none hs hi rfl h
  | other t => exact hsame m none hs hi rfl h
  | key k =>
    by_cases c1 : k.str = "ctrl+c" ∨ k.str = "q"
    · rw [single_Update_cancel m k c1] at h
      simp only [Except.ok.injEq, Prod.mk.injEq] at h
      obtain ⟨rfl, rfl⟩ := h
      exact ⟨fun _ => Or.inl hs, fun hc => absurd rfl hc⟩
    by_cases c2 : k.str = "up" ∨ k.str = "k"
    · rw [single_Update_up m k c2] at h
      refine hsame _ none ?_ ?_ rfl h <;> split_ifs <;> assumption
    by_cases c3 : k.str = "down" ∨ k.str = "j"
    · rw [single_Update_down m k c3] at h
      refine hsame _ none ?_ ?_ rfl h <;> split_ifs <;> assumption
    by_cases c4 : k.str = "enter" ∨ k.str = " "
    · rw [single_Update_confirm m k c4] at h
      cases hsl : sliceIndex m.Choices m.cursor with
      | error e1 =>
        rw [hsl] at h
        exact Except.noConfusion h
      | ok s =>
        rw [hsl] at h
        simp only [Except.ok.injEq, Prod.mk.injEq] at h
        obtain ⟨rfl, rfl⟩ := h
        exact ⟨fun _ => Or.inr hi, fun hc => absurd rfl hc⟩
    · rw [single_Update_otherKey m k c1 c2 c3 c4] at h
      exact hsame m none hs hi rfl h

theorem single_runCmds_total (msgs : List Msg) (m : SingleModel) :
    (∃ m1 cs, m.runCmds msgs = .ok (m1, cs) ∧ cs.length = msgs.length) ∨
    m.runCmds msgs = .error .indexOutOfRange := by
  induction msgs generalizing m with
  | nil => exact Or.inl ⟨m, [], rfl, rfl⟩
  | cons msg rest ih =>
    cases hu : m.Update msg with
    | error e =>
      right
      have he := single_Update_error_eq m msg e hu
      simp [SingleModel.runCmds, hu, he]
    | ok r =>
      obtain ⟨m1, c⟩ := r
      rcases ih m1 with ⟨m2, cs, hrun, hlen⟩ | herr
      · exact Or.inl ⟨m2, c :: cs, by simp [SingleModel.runCmds, hu, hrun], by simp [hlen]⟩
      · exact Or.inr (by simp [SingleModel.runCmds, hu, herr])

theorem single_runCmds_running (msgs : List Msg) (m m1 : SingleModel) (cs : List (Option Cmd))
    (hs : m.Selected = "") (hi : m.Interrupt = false) (hrun : m.runCmds msgs = .ok (m1, cs))
    (hq : some Cmd.Quit ∉ cs) : m1.Selected = "" ∧ m1.Interrupt = false := by
  induction msgs generalizing m cs with
  | nil =>
    simp only [SingleModel.runCmds, Except.ok.injEq, Prod.mk.injEq] at hrun
    obtain ⟨rfl, -⟩ := hrun
    exact ⟨hs, hi⟩
  | cons msg rest ih =>
    cases hu : m.Update msg with
    | error e => simp [SingleModel.runCmds, hu] at hrun
    | ok r =>
      obtain ⟨m2, c⟩ := r
      cases hrest : m2.runCmds rest with
      | error e => simp [SingleModel.runCmds, hu, hrest] at hrun
      | ok r2 =>
        obtain ⟨m3, cs2⟩ := r2
        simp only [SingleModel.runCmds, hu, hrest, Except.ok.injEq, Prod.mk.injEq] at hrun
        obtain ⟨rfl, rfl⟩ := hrun
        have hc : c ≠ some Cmd.Quit := fun h => hq (by simp [h])
        have hq2 : some Cmd.Quit ∉ cs2 := fun h => hq (List.mem_cons_of_mem _ h)
        obtain ⟨h2s, h2i⟩ := (single_Update_running m m2 msg c hs hi hu).2 hc
        exact ih m2 cs2 h2s h2i hrest hq2

theorem single_runCmds_inRange (msgs : List Msg) (m m1 : SingleModel) (cs : List (Option Cmd))
    (h : m.InRange) (hrun : m.runCmds msgs = .ok (m1, cs)) : m1.InRange := by
  induction msgs generalizing m cs with
  | nil =>
    simp only [SingleModel.runCmds, Except.ok.injEq, Prod.mk.injEq] at hrun
    obtain ⟨rfl, -⟩ := hrun
    exact h
  | cons msg rest ih =>
    obtain ⟨m2, c, hu, -, hr⟩ := single_Update_inRange m msg h
    cases hrest : m2.runCmds rest with
    | error e => simp [SingleModel.runCmds, hu, hrest] at hrun
    | ok r2 =>
      obtain ⟨m3, cs2⟩ := r2
      simp only [SingleModel.runCmds, hu, hrest, Except.ok.injEq, Prod.mk.injEq] at hrun
      obtain ⟨rfl, -⟩ := hrun
      exact ih m2 cs2 hr hrest

theorem single_runCmds_inRange_ok (msgs : List Msg) (m : SingleModel) (h : m.InRange) :
    ∃ m1 cs, m.runCmds msgs = .ok (m1, cs) := by
  induction msgs generalizing m with
  | nil => exact ⟨m, [], rfl⟩
  | cons msg rest ih =>
    obtain ⟨m2, c, hu, -, hr⟩ := single_Update_inRange m msg h
    obtain ⟨m3, cs, hrest⟩ := ih m2 hr
    exact ⟨m3, c :: cs, by simp [SingleModel.runCmds, hu, hrest]⟩

/-- Claim C11, as stated, fails once a key is delivered after the first
termination request: `Update` has no guard on the flags.  On three choices the
keys down, enter, q delivered to `Update` in this order return the commands
none, `tea.Quit`, `tea.Quit`, and the state after them has both
`Selected = "green"` and `Interrupt = true`. -/
theorem single_both_flags_after_enter_then_q :
    (NewSingle ["red", "green", "blue"] "t" "m").runCmds
        [keyOf "down", keyOf "enter", keyOf "q"]
      = .ok ({ Selected := "green", Interrupt := true, Choices := ["red", "green", "blue"],
               cursor := 1, Message := "m", Title := "t" },
             [none, some Cmd.Quit, some Cmd.Quit]) := by
  decide

/-- Claim C11, amended: deliver any sequence of events to `Update` starting
from `NewSingle`.  The run fails only by the index panic on the empty choice
list.  As long as no call has returned `tea.Quit`, `Selected` is empty and
`Interrupt` is false, and the next call of `Update`, on any event, either is
that panic on the empty list or returns a state that does not have both
`Selected` non-empty and `Interrupt = true`; in particular the state returned
by the first call that returns `tea.Quit` never has both.  Nothing is said of
events delivered after a termination request. -/
theorem single_flags_until_first_quit (choices : List String) (title message : String)
    (msgs : List Msg) (x : Msg) :
    (∃ m cmds, (NewSingle choices title message).runCmds msgs = .ok (m, cmds) ∧
        cmds.length = msgs.length ∧
        (some Cmd.Quit ∉ cmds →
          (m.Selected = "" ∧ m.Interrupt = false) ∧
          ((choices = [] ∧ m.Update x = .error .indexOutOfRange) ∨
            ∃ m1 c, m.Update x = .ok (m1, c) ∧
              ¬ (m1.Selected ≠ "" ∧ m1.Interrupt = true)))) ∨
    (choices = [] ∧
      (NewSingle choices title message).runCmds msgs = .error .indexOutOfRange) := by
  have hnonempty : choices ≠ [] → (NewSingle choices title message).InRange := by
    intro hne
    have hlen : 0 < choices.length := List.length_pos.mpr hne
    simp only [SingleModel.InRange, NewSingle]
    omega
  rcases single_runCmds_total msgs (NewSingle choices title message) with
    ⟨m, cmds, hrun, hlen⟩ | herr
  · left
    refine ⟨m, cmds, hrun, hlen, fun hq => ?_⟩
    obtain ⟨hs, hi⟩ := single_runCmds_running msgs _ m cmds rfl rfl hrun hq
    refine ⟨⟨hs, hi⟩, ?_⟩
    cases hu : m.Update x with
    | error e =>
      left
      have he := single_Update_error_eq m x e hu
      refine ⟨?_, by rw [he]⟩
      by_contra hne
      have hr := single_runCmds_inRange msgs _ m cmds (hnonempty hne) hrun
      obtain ⟨m1, c, hok, -, -⟩ := single_Update_inRange m x hr
      rw [hok] at hu
      exact Except.noConfusion hu
    | ok r =>
      right
      obtain ⟨m1, c⟩ := r
      refine ⟨m1, c, rfl, ?_⟩
      rintro ⟨hsel, hint⟩
      obtain ⟨hq1, hn1⟩ := single_Update_running m m1 x c hs hi hu
      by_cases hc : c = some Cmd.Quit
      · rcases hq1 hc with h | h
        · exact hsel h
        · rw [h] at hint
          exact Bool.noConfusion hint
      · exact hsel (hn1 hc).1
  · by_cases hne : choices = []
    · exact Or.inr ⟨hne, herr⟩
    · exfalso
      obtain ⟨m, cs, hrun⟩ := single_runCmds_inRange_ok msgs _ (hnonempty hne)
      rw [hrun] at herr
      exact Except.noConfusion herr

theorem single_flags_until_first_quit_witness :
    (∃ m cmds, (NewSingle ["red", "green", "blue"] "t" "m").runCmds
          [keyOf "down", keyOf "x", keyOf "up"] = .ok (m, cmds) ∧
        cmds.length = [keyOf "down", keyOf "x", keyOf "up"].length ∧
        (some Cmd.Quit ∉ cmds →
          (m.Selected = "" ∧ m.Interrupt = false) ∧
          (((["red", "green", "blue"] : List String) = [] ∧
              m.Update (keyOf "enter") = .error .indexOutOfRange) ∨
            ∃ m1 c, m.Update (keyOf "enter") = .ok (m1, c) ∧
              ¬ (m1.Selected ≠ "" ∧ m1.Interrupt = true)))) ∨
    ((["red", "green", "blue"] : List String) = [] ∧
      (NewSingle ["red", "green", "blue"] "t" "m").runCmds
          [keyOf "down", keyOf "x", keyOf "up"] = .error .indexOutOfRange) :=
  single_flags_until_first_quit ["red", "green", "blue"] "t" "m"
    [keyOf "down", keyOf "x", keyOf "up"] (keyOf "enter")

/-- The sample run of the amended flag invariant, evaluated: the keys down, x,
up return no `tea.Quit` and leave both flags clear, and the enter key then
returns `tea.Quit` with `Selected = "red"` and `Interrupt` still false. -/
theorem single_flags_sample_run :
    (NewSingle ["red", "green", "blue"] "t" "m").runCmds [keyOf "down", keyOf "x", keyOf "up"]
      = .ok (NewSingle ["red", "green", "blue"] "t" "m", [none, none, none]) ∧
    (NewSingle ["red", "green", "blue"] "t" "m").Update (keyOf "enter")
      = .ok ({ NewSingle ["red", "green", "blue"] "t" "m" with Selected := "red" },
             some Cmd.Quit) := by
  constructor <;> decide

/-- Claim C12, as stated, fails: `exampleInterrupted` has `Interrupt = true`
(it is the state `NewSingle` reaches on three choices by `down` then `q`), and
`Update` with the up key moves its cursor from 1 to 0. -/
theorem up_moves_cursor_of_interrupted_state :
    (NewSingle ["red", "green", "blue"] "t" "m").run [keyOf "down", keyOf "q"]
        = .ok exampleInterrupted ∧
      exampleInterrupted.Interrupt = true ∧ exampleInterrupted.cursor = 1 ∧
      exampleInterrupted.Update (keyOf "up")
        = .ok ({ exampleInterrupted with cursor := 0 }, none) := by
  refine ⟨?_, rfl, rfl, ?_⟩ <;> decide

/-- Claim C12, amended: in a `SingleModel` state with `Selected` non-empty or
`Interrupt = true`, `Update` on an event other than the keys `up`, `k`, `down`,
`j` returns a state with the cursor unchanged, or panics when the event is a
confirm key and the cursor is not a valid index.  On an up key it returns the
state with the cursor decremented when it is above 0, on a down key the state
with the cursor incremented when it is below `N-1`; in both cases no command
is returned, every other field is as it was and the terminal flag is still
set. -/
theorem terminal_state_cursor_moves_only_on_nav (m : SingleModel) (msg : Msg)
    (hflag : m.Selected ≠ "" ∨ m.Interrupt = true) :
    (keyIn msg ["up", "k", "down", "j"] = false →
      (keyIn msg ["enter", " "] = true ∧
          ¬ (0 ≤ m.cursor ∧ m.cursor < (m.Choices.length : Int)) ∧
          m.Update msg = .error .indexOutOfRange) ∨
        ∃ m1 c, m.Update msg = .ok (m1, c) ∧ m1.cursor = m.cursor) ∧
    (keyIn msg ["up", "k"] = true →
      ∃ m1, m.Update msg = .ok (m1, none) ∧
        m1 = { m with cursor := if m.cursor > 0 then m.cursor - 1 else m.cursor } ∧
        (m1.Selected ≠ "" ∨ m1.Interrupt = true)) ∧
    (keyIn msg ["down", "j"] = true →
      ∃ m1, m.Update msg = .ok (m1, none) ∧
        m1 = { m with
                cursor := if m.cursor < (m.Choices.length : Int) - 1 then m.cursor + 1
                          else m.cursor } ∧
        (m1.Selected ≠ "" ∨ m1.Interrupt = true)) := by
  refine ⟨fun h => ?_, fun h => ?_, fun h => ?_⟩
  · cases msg with
    | error e => exact Or.inr ⟨m, none, rfl, rfl⟩
    | other t => exact Or.inr ⟨m, none, rfl, rfl⟩
    | key k =>
      simp only [keyIn, List.mem_cons, List.mem_singleton, List.not_mem_nil, or_false,
        decide_eq_false_iff_not, not_or] at h
      obtain ⟨h1, h2, h3, h4⟩ := h
      by_cases c1 : k.str = "ctrl+c" ∨ k.str = "q"
      · exact Or.inr ⟨_, _, single_Update_cancel m k c1, rfl⟩
      by_cases c4 : k.str = "enter" ∨ k.str = " "
      · rw [single_Update_confirm m k c4]
        cases hs : sliceIndex m.Choices m.cursor with
        | error e1 =>
          left
          refine ⟨?_, ?_, ?_⟩
          · simp only [keyIn, List.mem_cons, List.mem_singleton, List.not_mem_nil, or_false,
              decide_eq_true_eq]
            exact c4
          · rintro ⟨g0, g1⟩
            obtain ⟨s1, -, hok⟩ := sliceIndex_of_inRange m.Choices m.cursor g0 g1
            rw [hok] at hs
            exact Except.noConfusion hs
          · rw [sliceIndex_error_eq _ _ _ hs]
        | ok s1 => exact Or.inr ⟨_, _, rfl, rfl⟩
      · refine Or.inr ⟨m, none, single_Update_otherKey m k c1 ?_ ?_ c4, rfl⟩
        · rintro (h | h)
          · exact h1 h
          · exact h2 h
        · rintro (h | h)
          · exact h3 h
          · exact h4 h
  · cases msg with
    | error e => simp [keyIn] at h
    | other t => simp [keyIn] at h
    | key k =>
      simp only [keyIn, List.mem_cons, List.mem_singleton, List.not_mem_nil, or_false,
        decide_eq_true_eq] at h
      refine ⟨_, ?_, rfl, hflag⟩
      rw [single_Update_up m k h]
      split_ifs <;> rfl
  · cases msg with
    | error e => simp [keyIn] at h
    | other t => simp [keyIn] at h
    | key k =>
      simp only [keyIn, List.mem_cons, List.mem_singleton, List.not_mem_nil, or_false,
        decide_eq_true_eq] at h
      refine ⟨_, ?_, rfl, hflag⟩
      rw [single_Update_down m k h]
      split_ifs <;> rfl

theorem terminal_state_cursor_moves_only_on_nav_witness :
    (exampleInterrupted.Selected ≠ "" ∨ exampleInterrupted.Interrupt = true) ∧
    (keyIn (keyOf "up") ["up", "k"] = true ∧ keyIn (keyOf "j") ["down", "j"] = true ∧
      keyIn (keyOf "x") ["up", "k", "down", "j"] = false) ∧
    ((keyIn (keyOf "x") ["enter", " "] = true ∧
          ¬ (0 ≤ exampleInterrupted.cursor ∧
              exampleInterrupted.cursor < (exampleInterrupted.Choices.length : Int)) ∧
          exampleInterrupted.Update (keyOf "x") = .error .indexOutOfRange) ∨
        ∃ m1 c, exampleInterrupted.Update (keyOf "x") = .ok (m1, c) ∧
          m1.cursor = exampleInterrupted.cursor) ∧
    (∃ m1, exampleInterrupted.Update (keyOf "up") = .ok (m1, none) ∧
        m1 = { exampleInterrupted with
                cursor := if exampleInterrupted.cursor > 0 then exampleInterrupted.cursor - 1
                          else exampleInterrupted.cursor } ∧
        (m1.Selected ≠ "" ∨ m1.Interrupt = true)) ∧
    (∃ m1, exampleInterrupted.Update (keyOf "j") = .ok (m1, none) ∧
        m1 = { exampleInterrupted with
                cursor := if exampleInterrupted.cursor
                              < (exampleInterrupted.Choices.length : Int) - 1
                          then exampleInterrupted.cursor + 1
                          else exampleInterrupted.cursor } ∧
        (m1.Selected ≠ "" ∨ m1.Interrupt = true)) :=
  ⟨Or.inr rfl, ⟨by decide, by decide, by decide⟩,
   (terminal_state_cursor_moves_only_on_nav exampleInterrupted (keyOf "x") (Or.inr rfl)).1
     (by decide),
   (terminal_state_cursor_moves_only_on_nav exampleInterrupted (keyOf "up") (Or.inr rfl)).2.1
     (by decide),
   (terminal_state_cursor_moves_only_on_nav exampleInterrupted (keyOf "j") (Or.inr rfl)).2.2
     (by decide)⟩

/-- Claim C13: in a `SingleModel` or `MultipleModel` state with `N ≥ 1` choices
and cursor `c` in `[0, N-1]`, `Update` on an up key (`up`, `k`) returns the
state with the cursor set to `max(0, c-1)`, and on a down key (`down`, `j`) the
state with the cursor set to `min(N-1, c+1)`; every other field is unchanged
and no command is returned. -/
theorem nav_clamps_cursor (m : SingleModel) (mm : MultipleModel) (ku kd : KeyMsg)
    (hku : ku.str = "up" ∨ ku.str = "k") (hkd : kd.str = "down" ∨ kd.str = "j")
    (h0 : 0 ≤ m.cursor) (h1 : m.cursor ≤ (m.Choices.length : Int) - 1)
    (g0 : 0 ≤ mm.cursor) (g1 : mm.cursor ≤ (mm.Choices.length : Int) - 1) :
    (m.Update (.key ku) = .ok ({ m with cursor := max 0 (m.cursor - 1) }, none) ∧
     m.Update (.key kd)
       = .ok ({ m with cursor := min ((m.Choices.length : Int) - 1) (m.cursor + 1) }, none)) ∧
    (mm.Update (.key ku) = .ok ({ mm with cursor := max 0 (mm.cursor - 1) }, none) ∧
     mm.Update (.key kd)
       = .ok ({ mm with cursor := min ((mm.Choices.length : Int) - 1) (mm.cursor + 1) },
              none)) := by
  have hup : ∀ c : Int, 0 ≤ c → max 0 (c - 1) = if c > 0 then c - 1 else c := by
    intro c hc
    split_ifs with h
    · exact max_eq_right (by omega)
    · have : c = 0 := by omega
      subst this
      simp
  have hdown : ∀ c n : Int, c ≤ n - 1 → min (n - 1) (c + 1) = if c < n - 1 then c + 1 else c := by
    intro c n hc
    split_ifs with h
    · exact min_eq_right (by omega)
    · have : c = n - 1 := by omega
      subst this
      simp
  refine ⟨⟨?_, ?_⟩, ?_, ?_⟩
  · rw [single_Update_up m ku hku, hup _ h0]
    split_ifs <;> rfl
  · rw [single_Update_down m kd hkd, hdown _ _ h1]
    split_ifs <;> rfl
  · rw [multiple_Update_up mm ku hku, hup _ g0]
    split_ifs <;> rfl
  · rw [multiple_Update_down mm kd hkd, hdown _ _ g1]
    split_ifs <;> rfl

theorem nav_clamps_cursor_witness :
    (("up" = "up" ∨ "up" = "k") ∧ ("down" = "down" ∨ "down" = "j") ∧
      0 ≤ exampleSingle.cursor ∧ exampleSingle.cursor ≤ (exampleSingle.Choices.length : Int) - 1 ∧
      0 ≤ exampleMultiple.cursor ∧
      exampleMultiple.cursor ≤ (exampleMultiple.Choices.length : Int) - 1) ∧
    ((exampleSingle.Update (.key { Typ := .KeyOther 0, str := "up" })
        = .ok ({ exampleSingle with cursor := max 0 (exampleSingle.cursor - 1) }, none) ∧
      exampleSingle.Update (.key { Typ := .KeyOther 0, str := "down" })
        = .ok ({ exampleSingle with
                  cursor := min ((exampleSingle.Choices.length : Int) - 1)
                              (exampleSingle.cursor + 1) }, none)) ∧
     (exampleMultiple.Update (.key { Typ := .KeyOther 0, str := "up" })
        = .ok ({ exampleMultiple with cursor := max 0 (exampleMultiple.cursor - 1) }, none) ∧
      exampleMultiple.Update (.key { Typ := .KeyOther 0, str := "down" })
        = .ok ({ exampleMultiple with
                  cursor := min ((exampleMultiple.Choices.length : Int) - 1)
                              (exampleMultiple.cursor + 1) }, none))) :=
  ⟨⟨Or.inl rfl, Or.inl rfl, by decide, by decide, by decide, by decide⟩,
   nav_clamps_cursor exampleSingle exampleMultiple { Typ := .KeyOther 0, str := "up" }
     { Typ := .KeyOther 0, str := "down" } (Or.inl rfl) (Or.inl rfl)
     (by decide) (by decide) (by decide) (by decide)⟩

/-- Claim C14: for every `SingleModel` state, `Update` on an event that is not
a cancel key (`ctrl+c`, `q`), an up key (`up`, `k`), a down key (`down`, `j`) or
a confirm key (`enter`, space), in particular on every event that is not a key
event, returns the state itself and no command; likewise for every
`MultipleModel` state on an event that is none of these keys nor `esc`. -/
theorem other_events_change_nothing (m : SingleModel) (mm : MultipleModel) (msg : Msg) :
    (keyIn msg ["ctrl+c", "q", "up", "k", "down", "j", "enter", " "] = false →
      m.Update msg = .ok (m, none)) ∧
    (keyIn msg ["ctrl+c", "q", "up", "k", "down", "j", "enter", " ", "esc"] = false →
      mm.Update msg = .ok (mm, none)) := by
  constructor
  · intro h
    cases msg with
    | error e => rfl
    | other t => rfl
    | key k =>
      simp only [keyIn, List.mem_cons, List.mem_singleton, List.not_mem_nil, or_false,
        decide_eq_false_iff_not, not_or] at h
      obtain ⟨a1, a2, a3, a4, a5, a6, a7, a8⟩ := h
      exact single_Update_otherKey m k (not_or.mpr ⟨a1, a2⟩) (not_or.mpr ⟨a3, a4⟩)
        (not_or.mpr ⟨a5, a6⟩) (not_or.mpr ⟨a7, a8⟩)
  · intro h
    cases msg with
    | error e => rfl
    | other t => rfl
    | key k =>
      simp only [keyIn, List.mem_cons, List.mem_singleton, List.not_mem_nil, or_false,
        decide_eq_false_iff_not, not_or] at h
      obtain ⟨a1, a2, a3, a4, a5, a6, a7, a8, a9⟩ := h
      exact multiple_Update_otherKey mm k (not_or.mpr ⟨a1, a2⟩) (not_or.mpr ⟨a3, a4⟩)
        (not_or.mpr ⟨a5, a6⟩) a7 a8 a9

theorem other_events_change_nothing_witness :
    (keyIn (keyOf "x") ["ctrl+c", "q", "up", "k", "down", "j", "enter", " "] = false ∧
      keyIn (Msg.other 7) ["ctrl+c", "q", "up", "k", "down", "j", "enter", " ", "esc"] = false) ∧
    exampleSingle.Update (keyOf "x") = .ok (exampleSingle, none) ∧
    exampleMultiple.Update (Msg.other 7) = .ok (exampleMultiple, none) :=
  ⟨⟨by decide, by decide⟩,
   (other_events_change_nothing exampleSingle exampleMultiple (keyOf "x")).1 (by decide),
   (other_events_change_nothing exampleSingle exampleMultiple (Msg.other 7)).2 (by decide)⟩

/-- Claim C20: for every `SingleModel` state and every `MultipleModel` state,
`Update` on the key `k` returns the same state and command as on the key `up`,
and on the key `j` the same as on the key `down`. -/
theorem k_j_are_navigation_keys (m : SingleModel) (mm : MultipleModel)
    (kk kup kj kdown : KeyMsg) (hk : kk.str = "k") (hup : kup.str = "up")
    (hj : kj.str = "j") (hdown : kdown.str = "down") :
    (m.Update (.key kk) = m.Update (.key kup) ∧ m.Update (.key kj) = m.Update (.key kdown)) ∧
    (mm.Update (.key kk) = mm.Update (.key kup) ∧
      mm.Update (.key kj) = mm.Update (.key kdown)) := by
  refine ⟨⟨?_, ?_⟩, ?_, ?_⟩
  · rw [single_Update_up m kk (Or.inr hk), single_Update_up m kup (Or.inl hup)]
  · rw [single_Update_down m kj (Or.inr hj), single_Update_down m kdown (Or.inl hdown)]
  · rw [multiple_Update_up mm kk (Or.inr hk), multiple_Update_up mm kup (Or.inl hup)]
  · rw [multiple_Update_down mm kj (Or.inr hj), multiple_Update_down mm kdown (Or.inl hdown)]

theorem k_j_are_navigation_keys_witness :
    ("k" = "k" ∧ "up" = "up" ∧ "j" = "j" ∧ "down" = "down") ∧
    ((exampleSingle.Update (.key { Typ := .KeyOther 0, str := "k" })
        = exampleSingle.Update (.key { Typ := .KeyOther 1, str := "up" }) ∧
      exampleSingle.Update (.key { Typ := .KeyOther 0, str := "j" })
        = exampleSingle.Update (.key { Typ := .KeyOther 2, str := "down" })) ∧
     (exampleMultiple.Update (.key { Typ := .KeyOther 0, str := "k" })
        = exampleMultiple.Update (.key { Typ := .KeyOther 1, str := "up" }) ∧
      exampleMultiple.Update (.key { Typ := .KeyOther 0, str := "j" })
        = exampleMultiple.Update (.key { Typ := .KeyOther 2, str := "down" }))) :=
  ⟨⟨rfl, rfl, rfl, rfl⟩,
   k_j_are_navigation_keys exampleSingle exampleMultiple { Typ := .KeyOther 0, str := "k" }
     { Typ := .KeyOther 1, str := "up" } { Typ := .KeyOther 0, str := "j" }
     { Typ := .KeyOther 2, str := "down" } rfl rfl rfl rfl⟩


/-! ## `MultipleModel.View` -/

theorem choiceLine_data (m : MultipleModel) (i : Nat) (choice : String) :
    (m.choiceLine i choice).data
      = (if m.cursor = (i : Int) then '>' else ' ') :: ' ' :: '[' ::
          (if mapHas m.Selected (i : Int) = true then 'x' else ' ') :: ']' :: ' ' ::
          (choice.data ++ ['\n']) := by
  simp only [MultipleModel.choiceLine, String.data_append]
  by_cases hc : m.cursor = (i : Int) <;> by_cases hx : mapHas m.Selected (i : Int) = true <;>
    simp [hc, hx]

theorem viewLoop_eq (m : MultipleModel) (cs : List String) (i : Nat) (s : String) :
    m.viewLoop i cs s
      = s ++ String.join ((cs.enumFrom i).map fun p => m.choiceLine p.1 p.2) := by
  induction cs generalizing i s with
  | nil =>
    apply String.ext
    simp [MultipleModel.viewLoop, String.data_append]
  | cons c rest ih =>
    rw [MultipleModel.viewLoop, ih]
    apply String.ext
    simp [String.data_append]

theorem choiceLine_head (m : MultipleModel) (i : Nat) (choice : String) :
    (m.choiceLine i choice).data.head? = some '>' ↔ m.cursor = (i : Int) := by
  rw [choiceLine_data]
  by_cases hc : m.cursor = (i : Int) <;> simp [hc]

theorem choiceLine_checked (m : MultipleModel) (i : Nat) (choice : String) :
    (m.choiceLine i choice).data.get? 3 = some 'x' ↔ mapHas m.Selected (i : Int) = true := by
  rw [choiceLine_data]
  by_cases hx : mapHas m.Selected (i : Int) = true <;> simp [hx]

theorem countP_enumFrom_cursor (m : MultipleModel) (cs : List String) (i : Nat) :
    ((cs.enumFrom i).map fun p => m.choiceLine p.1 p.2).countP
        (fun l => decide (l.data.head? = some '>'))
      = if (i : Int) ≤ m.cursor ∧ m.cursor < (i : Int) + (cs.length : Int) then 1 else 0 := by
  induction cs generalizing i with
  | nil =>
    have hno : ¬ ((i : Int) ≤ m.cursor ∧
        m.cursor < (i : Int) + (([] : List String).length : Int)) := by
      simp only [List.length_nil]
      omega
    rw [if_neg hno]
    rfl
  | cons c rest ih =>
    rw [List.enumFrom_cons, List.map_cons, List.countP_cons, ih (i + 1)]
    have hlen : ((c :: rest).length : Int) = (rest.length : Int) + 1 := by
      simp
    by_cases hc : m.cursor = (i : Int)
    · have hhead : decide ((m.choiceLine i c).data.head? = some '>') = true :=
        decide_eq_true ((choiceLine_head m i c).mpr hc)
      have h1 : ¬ (((i + 1 : Nat) : Int) ≤ m.cursor ∧
          m.cursor < ((i + 1 : Nat) : Int) + (rest.length : Int)) := by
        push_cast
        omega
      have h2 : (i : Int) ≤ m.cursor ∧ m.cursor < (i : Int) + ((c :: rest).length : Int) := by
        rw [hlen]
        omega
      rw [if_neg h1, if_pos h2]
      simp only [hhead, if_true]
    · have hhead : decide ((m.choiceLine i c).data.head? = some '>') = false :=
        decide_eq_false (fun h => hc ((choiceLine_head m i c).mp h))
      simp only [hhead, Bool.false_eq_true, if_false, Nat.add_zero]
      by_cases h2 : (i : Int) ≤ m.cursor ∧ m.cursor < (i : Int) + ((c :: rest).length : Int)
      · have h1 : ((i + 1 : Nat) : Int) ≤ m.cursor ∧
            m.cursor < ((i + 1 : Nat) : Int) + (rest.length : Int) := by
          rw [hlen] at h2
          push_cast
          omega
        rw [if_pos h1, if_pos h2]
      · have h1 : ¬ (((i + 1 : Nat) : Int) ≤ m.cursor ∧
            m.cursor < ((i + 1 : Nat) : Int) + (rest.length : Int)) := by
          rw [hlen] at h2
          push_cast
          omega
        rw [if_neg h1, if_neg h2]


theorem mapHas_iff (sel : Option (Finset Int)) (i : Int) :
    mapHas sel i = true ↔ ∃ S, sel = some S ∧ i ∈ S := by
  cases sel with
  | none => simp [mapHas]
  | some S => simp [mapHas]

theorem choiceLine_format (m : MultipleModel) (i : Nat) (choice : String) :
    m.choiceLine i choice
      = (if m.cursor = (i : Int) then "> " else "  ")
          ++ (if mapHas m.Selected (i : Int) = true then "[x] " else "[ ] ")
          ++ choice ++ "\n" := by
  apply String.ext
  rw [choiceLine_data]
  by_cases hc : m.cursor = (i : Int) <;> by_cases hx : mapHas m.Selected (i : Int) = true <;>
    simp [hc, hx, String.data_append]

theorem getElem?_enumFrom_map_choiceLine (m : MultipleModel) (cs : List String) (k i : Nat)
    (choice : String) (h : cs[i]? = some choice) :
    ((cs.enumFrom k).map fun p => m.choiceLine p.1 p.2)[i]? = some (m.choiceLine (k + i) choice) := by
  induction cs generalizing k i with
  | nil => simp at h
  | cons c rest ih =>
    cases i with
    | zero =>
      simp only [List.getElem?_cons_zero, Option.some.injEq] at h
      simp [h]
    | succ j =>
      simp only [List.getElem?_cons_succ] at h
      have := ih (k + 1) j h
      simp only [List.enumFrom_cons, List.map_cons, List.getElem?_cons_succ, this]
      congr 2
      omega

/-- Claim C15: `MultipleModel.View` is the title, a newline, the message, two
newlines (the message line and a blank line), then one line per choice in list
order, then the footer.  The line of choice `i` is `"> "` when `i` is the
cursor and two blanks otherwise, then `"[x] "` when `i` is in `Selected` and
`"[ ] "` otherwise, then `Choices[i]` and a newline; so its checkbox character
is `x` exactly when `i` is in `Selected`, its first character is `>` exactly
when `i` is the cursor, and when the cursor is in `[0, N-1]` exactly one line
starts with `>`. -/
theorem multiple_view_choice_lines (m : MultipleModel) :
    m.View = m.Title ++ "\n" ++ m.Message ++ "\n\n"
        ++ String.join (m.Choices.enum.map fun p => m.choiceLine p.1 p.2)
        ++ ("\nSelected: " ++ m.Message ++ "\n")
        ++ "\nPress q or Ctrl+C to quit, Space to select, Esc to select all, Enter to finalize selection\n" ∧
    (m.Choices.enum.map fun p => m.choiceLine p.1 p.2).length = m.Choices.length ∧
    (∀ (i : Nat) (choice : String), m.Choices[i]? = some choice →
        (m.Choices.enum.map fun p => m.choiceLine p.1 p.2)[i]? = some (m.choiceLine i choice)) ∧
    (∀ (i : Nat) (choice : String),
        m.choiceLine i choice
            = (if m.cursor = (i : Int) then "> " else "  ")
                ++ (if mapHas m.Selected (i : Int) = true then "[x] " else "[ ] ")
                ++ choice ++ "\n" ∧
        (mapHas m.Selected (i : Int) = true ↔ ∃ S, m.Selected = some S ∧ (i : Int) ∈ S) ∧
        ((m.choiceLine i choice).data.get? 3 = some 'x' ↔ mapHas m.Selected (i : Int) = true) ∧
        ((m.choiceLine i choice).data.head? = some '>' ↔ m.cursor = (i : Int))) ∧
    (0 ≤ m.cursor → m.cursor < (m.Choices.length : Int) →
        (m.Choices.enum.map fun p => m.choiceLine p.1 p.2).countP
            (fun l => decide (l.data.head? = some '>')) = 1) := by
  refine ⟨?_, by simp, ?_, ?_, ?_⟩
  · simp only [MultipleModel.View, viewLoop_eq, List.enum]
  · intro i choice h
    have := getElem?_enumFrom_map_choiceLine m m.Choices 0 i choice h
    simpa [List.enum] using this
  · intro i choice
    exact ⟨choiceLine_format m i choice, mapHas_iff _ _, choiceLine_checked m i choice,
      choiceLine_head m i choice⟩
  · intro h0 h1
    rw [List.enum, countP_enumFrom_cursor]
    have hin : ((0 : Nat) : Int) ≤ m.cursor ∧
        m.cursor < ((0 : Nat) : Int) + (m.Choices.length : Int) := by
      push_cast
      omega
    rw [if_pos hin]

theorem multiple_view_choice_lines_witness :
    ((["a", "b", "c"] : List String)[1]? = some "b" ∧ 0 ≤ exampleMultiple.cursor ∧
      exampleMultiple.cursor < (exampleMultiple.Choices.length : Int)) ∧
    (exampleMultiple.Choices.enum.map fun p => exampleMultiple.choiceLine p.1 p.2)[1]?
        = some (exampleMultiple.choiceLine 1 "b") ∧
    (exampleMultiple.Choices.enum.map fun p => exampleMultiple.choiceLine p.1 p.2).countP
        (fun l => decide (l.data.head? = some '>')) = 1 :=
  ⟨⟨rfl, by decide, by decide⟩,
   (multiple_view_choice_lines exampleMultiple).2.2.1 1 "b" rfl,
   (multiple_view_choice_lines exampleMultiple).2.2.2.2 (by decide) (by decide)⟩

/-- Claim C16: the footer does not depend on the selection.  `exampleMultiple`
and `exampleMultipleSecond` have the same choices, title, message and cursor
and the different in-range selections `{0}` and `{1}`; both render the footer
line `Selected: m`, where `m` is their `Message`, and their renderings differ
only in the checkbox lines. -/
theorem multiple_view_footer_prints_message :
    exampleMultiple.Selected = some {0} ∧ exampleMultipleSecond.Selected = some {1} ∧
    exampleMultiple.View
      = "t\nm\n\n> [x] a\n  [ ] b\n  [ ] c\n"
          ++ "\nSelected: m\n"
          ++ "\nPress q or Ctrl+C to quit, Space to select, Esc to select all, Enter to finalize selection\n" ∧
    exampleMultipleSecond.View
      = "t\nm\n\n> [ ] a\n  [x] b\n  [ ] c\n"
          ++ "\nSelected: m\n"
          ++ "\nPress q or Ctrl+C to quit, Space to select, Esc to select all, Enter to finalize selection\n" := by
  refine ⟨rfl, rfl, ?_, ?_⟩ <;> decide


/-! ## `InputModel` -/

theorem input_Update_forward {σ : Type} (w : σ → Msg → σ × Option Cmd) (m : InputModel σ)
    (msg : Msg) (h : isForwarded msg = true) :
    InputModel.Update w m msg = ({ m with Input := (w m.Input msg).1 }, (w m.Input msg).2) := by
  cases msg with
  | error e => simp [isForwarded] at h
  | other t => rfl
  | key k =>
    simp only [isForwarded, Bool.not_eq_true', decide_eq_false_iff_not] at h
    simp only [InputModel.Update, if_neg h]

theorem input_run_forward {σ : Type} (w : σ → Msg → σ × Option Cmd) (msgs : List Msg)
    (m : InputModel σ) (h : ∀ x ∈ msgs, isForwarded x = true) :
    InputModel.run w m msgs
      = { m with Input := msgs.foldl (fun s x => (w s x).1) m.Input } := by
  induction msgs generalizing m with
  | nil => rfl
  | cons msg rest ih =>
    rw [InputModel.run, input_Update_forward w m msg (h msg (List.mem_cons_self _ _)),
      ih _ (fun x hx => h x (List.mem_cons_of_mem _ hx))]
    rfl

/-- Claim C17: for every `InputModel` state and every widget, `Update` on a key
event of type enter, ctrl+c or esc returns `tea.Quit` and the state itself:
`Input`, `Prompt` and `Error` are unchanged and the widget is not consulted.
The result is the same for any two such keys, so the returned state does not
tell accept from cancel. -/
theorem input_quit_keys_return_state_unchanged {σ : Type} (w : σ → Msg → σ × Option Cmd)
    (m : InputModel σ) (k k2 : KeyMsg)
    (hk : k.Typ = .KeyEnter ∨ k.Typ = .KeyCtrlC ∨ k.Typ = .KeyEsc)
    (hk2 : k2.Typ = .KeyEnter ∨ k2.Typ = .KeyCtrlC ∨ k2.Typ = .KeyEsc) :
    InputModel.Update w m (.key k) = (m, some Cmd.Quit) ∧
    InputModel.Update w m (.key k) = InputModel.Update w m (.key k2) := by
  simp only [InputModel.Update, if_pos hk, if_pos hk2, and_self]

theorem input_quit_keys_return_state_unchanged_witness :
    ((KeyType.KeyEnter = .KeyEnter ∨ KeyType.KeyEnter = .KeyCtrlC ∨ KeyType.KeyEnter = .KeyEsc) ∧
      (KeyType.KeyEsc = .KeyEnter ∨ KeyType.KeyEsc = .KeyCtrlC ∨ KeyType.KeyEsc = .KeyEsc)) ∧
    (InputModel.Update (limitWidget 5) exampleInput (.key { Typ := .KeyEnter, str := "enter" })
        = (exampleInput, some Cmd.Quit) ∧
      InputModel.Update (limitWidget 5) exampleInput (.key { Typ := .KeyEnter, str := "enter" })
        = InputModel.Update (limitWidget 5) exampleInput (.key { Typ := .KeyEsc, str := "esc" })) :=
  ⟨⟨Or.inl rfl, Or.inr (Or.inr rfl)⟩,
   input_quit_keys_return_state_unchanged (limitWidget 5) exampleInput
     { Typ := .KeyEnter, str := "enter" } { Typ := .KeyEsc, str := "esc" }
     (Or.inl rfl) (Or.inr (Or.inr rfl))⟩

/-- Claim C18: for every `InputModel` state and every widget, `Update` on an
error value `e` returns the state with `Error = e`, `Input` and `Prompt`
unchanged, and no command; on every event that is not an error value the
returned state has the `Error` it had before, so a stored error is never
cleared, only replaced by a later error value. -/
theorem input_error_is_stored_and_kept {σ : Type} (w : σ → Msg → σ × Option Cmd)
    (m : InputModel σ) (e : String) (msg : Msg) :
    InputModel.Update w m (.error e) = ({ m with Error := some e }, none) ∧
    ((∀ e1, msg ≠ .error e1) → (InputModel.Update w m msg).1.Error = m.Error) ∧
    (m.Error ≠ none → (InputModel.Update w m msg).1.Error ≠ none) := by
  have hkeep : (∀ e1, msg ≠ .error e1) → (InputModel.Update w m msg).1.Error = m.Error := by
    intro h
    cases msg with
    | error e1 => exact absurd rfl (h e1)
    | other t => rfl
    | key k =>
      simp only [InputModel.Update]
      split_ifs <;> rfl
  refine ⟨rfl, hkeep, fun hne => ?_⟩
  cases msg with
  | error e1 => simp [InputModel.Update]
  | other t => exact hne
  | key k =>
    rw [hkeep (fun e1 h => Msg.noConfusion h)]
    exact hne

theorem input_error_is_stored_and_kept_witness :
    ((∀ e1, keyOf "a" ≠ .error e1) ∧
      ({ exampleInput with Error := some "boom" } : InputModel String).Error ≠ none) ∧
    (InputModel.Update (limitWidget 5) { exampleInput with Error := some "boom" } (keyOf "a")).1.Error
      = ({ exampleInput with Error := some "boom" } : InputModel String).Error ∧
    (InputModel.Update (limitWidget 5) { exampleInput with Error := some "boom" } (keyOf "a")).1.Error
      ≠ none :=
  ⟨⟨fun _ h => Msg.noConfusion h, fun h => Option.noConfusion h⟩,
   (input_error_is_stored_and_kept (limitWidget 5) { exampleInput with Error := some "boom" }
      "x" (keyOf "a")).2.1 (fun _ h => Msg.noConfusion h),
   (input_error_is_stored_and_kept (limitWidget 5) { exampleInput with Error := some "boom" }
      "x" (keyOf "a")).2.2 (fun h => Option.noConfusion h)⟩

/-- Claim C19: for every `InputModel` state, every widget and every event that
is neither an enter/ctrl+c/esc key event nor an error value, `Update` returns
the state with `Input` replaced by the state the widget's own `Update` returns
for that event, `Prompt` and `Error` unchanged, together with the command the
widget returned.  Over a sequence of such events the `Input` of the prompt is
the state the widget reaches on its own: the prompt adds no truncation or other
transformation, whatever limit the widget enforces. -/
theorem input_forwards_to_widget {σ : Type} (w : σ → Msg → σ × Option Cmd)
    (m : InputModel σ) (msg : Msg) (msgs : List Msg)
    (h : isForwarded msg = true) (hs : ∀ x ∈ msgs, isForwarded x = true) :
    InputModel.Update w m msg = ({ m with Input := (w m.Input msg).1 }, (w m.Input msg).2) ∧
    InputModel.run w m msgs = { m with Input := msgs.foldl (fun s x => (w s x).1) m.Input } :=
  ⟨input_Update_forward w m msg h, input_run_forward w msgs m hs⟩

theorem input_forwards_to_widget_witness :
    (isForwarded (keyOf "a") = true ∧
      ∀ x ∈ [keyOf "a", keyOf "b", keyOf "c", keyOf "d", keyOf "e", keyOf "f"],
        isForwarded x = true) ∧
    (InputModel.Update (limitWidget 5) exampleInput (keyOf "a")
        = ({ exampleInput with Input := (limitWidget 5 exampleInput.Input (keyOf "a")).1 },
           (limitWidget 5 exampleInput.Input (keyOf "a")).2) ∧
      InputModel.run (limitWidget 5) exampleInput
          [keyOf "a", keyOf "b", keyOf "c", keyOf "d", keyOf "e", keyOf "f"]
        = { exampleInput with
              Input := [keyOf "a", keyOf "b", keyOf "c", keyOf "d", keyOf "e", keyOf "f"].foldl
                (fun s x => (limitWidget 5 s x).1) exampleInput.Input }) :=
  ⟨⟨by decide, by decide⟩,
   input_forwards_to_widget (limitWidget 5) exampleInput (keyOf "a")
     [keyOf "a", keyOf "b", keyOf "c", keyOf "d", keyOf "e", keyOf "f"] (by decide) (by decide)⟩

/-- Scenario D of the specification, evaluated on the sample widget with limit
5: six characters forwarded one at a time leave the five characters the widget
accepted. -/
theorem scenario_D_widget_enforces_limit :
    (InputModel.run (limitWidget 5) exampleInput
        [keyOf "a", keyOf "b", keyOf "c", keyOf "d", keyOf "e", keyOf "f"]).Input = "abcde" := by
  decide

end Menu
